import Mathlib

/-!
# Verification of the token-wheel generation core

Shallow embedding of the distribution-to-wedge-to-sample pipeline and the
per-session generation state machine of the `ai-fun-token-wheel` backend
(`backend/generator.py` and `backend/main.py`), with theorems settling the
spec claims about it.

Conventions of the embedding:
* Probabilities and angles are exact rationals (`ℚ`); the floating-point
  arithmetic of the source is modelled exactly.
* The language model and tokenizer are the external Vocabulary Model; they
  are modelled as an abstract `LanguageModel` record of pure functions
  (`probs` for softmax-of-logits inference, `decode`, tokenized length,
  end-of-sequence id, special ids), as the spec treats them as a black box.
* Random draws (`np.random.choice`, `np.random.uniform`) are oracles passed
  in as parameters: a drawn index `Nat` and a `uniform : ℚ → ℚ → ℚ` function
  receiving the bounds.  Probability renormalisation in the source only
  shapes these draws and is noted in comments where it occurs.
* Python exceptions become `Except GenError`; each `GenError` constructor
  corresponds to one raise site (or HTTP error) of the source.
-/

deriving instance DecidableEq for Except

namespace TokenWheel

/-- Error kinds, one per raise site of the source, named by the spec's
error taxonomy (§7): `notFound` is the final raise of `select_token_by_id`,
`outOfRange` the raise of `select_token_from_angle`, `invalidState` the
HTTP 400 of `/api/select` when the session has no current distribution,
`emptyOther` the `np.random.choice` failure on an empty excluded set, and
`indexError` an out-of-range Python list index. -/
inductive GenError where
  | notFound (token_id : Int)
  | outOfRange (angle : ℚ)
  | invalidState
  | emptyOther
  | indexError
  deriving DecidableEq

/-- `generator.get_next_token_distribution` token dict:
`{token, token_id, probability, is_special}`. -/
structure TokenCandidate where
  token : String
  token_id : Int
  probability : ℚ
  is_special : Bool
  deriving DecidableEq

/-- The distribution dict returned by `get_next_token_distribution`:
`{tokens, remaining_probability, context, num_tokens}`. -/
structure Distribution where
  context : String
  tokens : List TokenCandidate
  remaining_probability : ℚ
  num_tokens : Nat
  deriving DecidableEq

/-- A wheel wedge as built by `map_distribution_to_wedges`. -/
structure Wedge where
  token : String
  token_id : Int
  probability : ℚ
  start_angle : ℚ
  end_angle : ℚ
  is_special : Bool
  is_other : Bool
  deriving DecidableEq

/-- The sample dict returned by the three selection modes of the Sampler. -/
structure SampleResult where
  token : String
  token_id : Int
  probability : ℚ
  wedge_start : ℚ
  wedge_end : ℚ
  target_angle : ℚ
  is_other : Bool
  deriving DecidableEq

/-- The external Vocabulary Model (language model + tokenizer), a black-box
collaborator per spec §1/§6: `probs context` is the softmax of the logits of
the last position (a probability vector indexed by token id), `decode` the
string form of a token id, `encode_len` the tokenized length of a context,
`eos_token_id` the end-of-sequence id and `all_special_ids` the tokenizer's
special ids. -/
structure LanguageModel where
  probs : String → List ℚ
  decode : Nat → String
  encode_len : String → Nat
  eos_token_id : Int
  all_special_ids : List Nat

/-- Sum of the `probability` fields of a candidate list,
`sum(t['probability'] for t in selected_tokens)`. -/
def candProbSum (ts : List TokenCandidate) : ℚ :=
  (ts.map (fun t => t.probability)).sum

/-- One insertion step of the stable descending sort below. -/
def insertByDesc {α : Type} (key : α → ℚ) (c : α) : List α → List α
  | [] => [c]
  | d :: ds => if key d ≤ key c then c :: d :: ds else d :: insertByDesc key c ds

/-- Stable sort by a rational key, descending: the behaviour of Python's
stable `list.sort(key=..., reverse=True)` used by the source (equal keys
keep their original relative order). -/
def sortByDesc {α : Type} (key : α → ℚ) : List α → List α
  | [] => []
  | x :: xs => insertByDesc key x (sortByDesc key xs)

/-- Candidate built for vocabulary index `token_id`, as in both selection
loops of `get_next_token_distribution`. -/
def mkCandidate (M : LanguageModel) (probs_np : List ℚ) (token_id : Nat) :
    TokenCandidate :=
  { token := M.decode token_id
    token_id := Int.ofNat token_id
    probability := probs_np.getD token_id 0
    is_special := M.all_special_ids.contains token_id }

/-- The indices selected by the primary mask of
`get_next_token_distribution`: `np.where(probs_np >= min_threshold)[0]`,
in ascending index order. -/
def primaryIds (probs_np : List ℚ) (min_threshold : ℚ) : List Nat :=
  (List.range probs_np.length).filter
    (fun i => min_threshold ≤ probs_np.getD i 0)

/-- The indices selected by the secondary mask of
`get_next_token_distribution`:
`np.where((probs_np >= secondary_threshold) & ~primary_mask)[0]`, in
ascending index order. -/
def secondaryIds (probs_np : List ℚ) (min_threshold : ℚ)
    (secondary_threshold : ℚ) : List Nat :=
  (List.range probs_np.length).filter
    (fun i => secondary_threshold ≤ probs_np.getD i 0 ∧
              ¬ min_threshold ≤ probs_np.getD i 0)

/-- `TokenWheelGenerator.get_next_token_distribution` (generator.py):
dual-threshold selection.  Primary pass keeps every vocabulary index with
probability ≥ `min_threshold` (`np.where` yields ascending indices); if the
remaining mass exceeds 0.2, a secondary pass appends every index with
probability ≥ `secondary_threshold` that the primary mask excluded, and the
remaining mass is recomputed; the final list is sorted by probability
descending (Python's stable sort). -/
def get_next_token_distribution (M : LanguageModel) (context : String)
    (min_threshold : ℚ) (secondary_threshold : ℚ) : Distribution :=
  let probs_np := M.probs context
  let selected₁ := (primaryIds probs_np min_threshold).map (mkCandidate M probs_np)
  let remaining₁ := 1 - candProbSum selected₁
  if remaining₁ > 1/5 then
    let selected₂ := selected₁ ++
      (secondaryIds probs_np min_threshold secondary_threshold).map
        (mkCandidate M probs_np)
    let remaining₂ := 1 - candProbSum selected₂
    let sorted := sortByDesc (fun t => t.probability) selected₂
    { context := context, tokens := sorted,
      remaining_probability := remaining₂, num_tokens := sorted.length }
  else
    let sorted := sortByDesc (fun t => t.probability) selected₁
    { context := context, tokens := sorted,
      remaining_probability := remaining₁, num_tokens := sorted.length }

/-- The wedge-building loop of `map_distribution_to_wedges`: wedges for the
candidate list starting at accumulated angle `cur`, together with the final
value of `current_angle`. -/
def wedgesFrom : List TokenCandidate → ℚ → List Wedge × ℚ
  | [], cur => ([], cur)
  | t :: ts, cur =>
    let wedge_angle := t.probability * 360
    let w : Wedge :=
      { token := t.token, token_id := t.token_id, probability := t.probability
        start_angle := cur, end_angle := cur + wedge_angle
        is_special := t.is_special, is_other := false }
    let rest := wedgesFrom ts (cur + wedge_angle)
    (w :: rest.1, rest.2)

/-- The token string of the terminal aggregate wedge. -/
def OTHER_TOKEN : String := "<OTHER>"

/-- `TokenWheelGenerator.map_distribution_to_wedges` (generator.py): one
wedge per candidate, placed sequentially from angle 0 with width
`probability * 360`; if `remaining_probability > 0`, a terminal `<OTHER>`
wedge from the accumulated angle to the literal constant `360.0`. -/
def map_distribution_to_wedges (d : Distribution) : List Wedge :=
  let scan := wedgesFrom d.tokens 0
  if d.remaining_probability > 0 then
    scan.1 ++ [{ token := OTHER_TOKEN, token_id := -1
                 probability := d.remaining_probability
                 start_angle := scan.2, end_angle := 360
                 is_special := false, is_other := true }]
  else scan.1

/-- The vocabulary indices excluded from a distribution's main candidates,
in ascending order: the loop of `_sample_from_other` that collects
`other_token_ids` (and, in `get_tokens_with_probabilities`, the same set
further filtered by positive probability). -/
def otherTokenIds (fullProbs : List ℚ) (d : Distribution) : List Nat :=
  let included_token_ids := d.tokens.map (fun t => t.token_id)
  (List.range fullProbs.length).filter
    (fun i => ¬ included_token_ids.contains (Int.ofNat i))

/-- `TokenWheelGenerator._sample_from_other` (generator.py): re-derive the
full probability vector for the distribution's context (`fullProbs`, the
callers pass the model's vector for `d.context`), exclude the main candidate
ids, and draw one concrete token from the excluded set.  The normalisation
of the excluded probabilities (uniform fallback when their sum is zero)
only shapes the weighted random draw, which is abstracted by the `choice`
oracle; a real draw is an index below the excluded population size, so
`choice` is reduced modulo that size.  `np.random.choice` on an empty
population raises, which is the `emptyOther` error. -/
def sample_from_other (fullProbs : List ℚ) (d : Distribution)
    (other_wedge : Wedge) (target_angle : ℚ) (decode : Nat → String)
    (choice : Nat) : Except GenError SampleResult :=
  let other_token_ids := otherTokenIds fullProbs d
  if other_token_ids.isEmpty then .error .emptyOther
  else
    let sampled_token_id := other_token_ids.getD (choice % other_token_ids.length) 0
    .ok { token := decode sampled_token_id
          token_id := Int.ofNat sampled_token_id
          probability := fullProbs.getD sampled_token_id 0
          wedge_start := other_wedge.start_angle
          wedge_end := other_wedge.end_angle
          target_angle := target_angle
          is_other := true }

/-- `TokenWheelGenerator.sample_token_from_distribution` (generator.py).
The weighted draw over `[candidate probabilities..., remaining]`
(renormalised by their sum) is abstracted by the `sample_idx` oracle; an
index equal to the number of candidates is the "remaining" slot and
triggers the other-resample with a uniform target angle inside the last
wedge, any other index returns that candidate with a uniform target angle
inside its wedge. -/
def sample_token_from_distribution (fullProbs : List ℚ) (d : Distribution)
    (decode : Nat → String) (sample_idx : Nat) (uniform : ℚ → ℚ → ℚ)
    (choice : Nat) : Except GenError SampleResult :=
  let tokens := d.tokens
  let wedges := map_distribution_to_wedges d
  if sample_idx = tokens.length then
    match wedges.getLast? with
    | some selected_wedge =>
        let target_angle := uniform selected_wedge.start_angle selected_wedge.end_angle
        sample_from_other fullProbs d selected_wedge target_angle decode choice
    | none => .error .indexError
  else
    match tokens.get? sample_idx, wedges.get? sample_idx with
    | some selected_token, some selected_wedge =>
        .ok { token := selected_token.token
              token_id := selected_token.token_id
              probability := selected_token.probability
              wedge_start := selected_wedge.start_angle
              wedge_end := selected_wedge.end_angle
              target_angle := uniform selected_wedge.start_angle selected_wedge.end_angle
              is_other := false }
    | _, _ => .error .indexError

/-- The linear scan of `select_token_from_angle`: the first wedge (with its
index) whose half-open interval contains the landing angle. -/
def findWedge : List Wedge → ℚ → Option (Nat × Wedge)
  | [], _ => none
  | w :: ws, landing_angle =>
    if w.start_angle ≤ landing_angle ∧ landing_angle < w.end_angle then
      some (0, w)
    else (findWedge ws landing_angle).map (fun p => (p.1 + 1, p.2))

/-- `TokenWheelGenerator.select_token_from_angle` (generator.py): linear
scan for the wedge whose `[start_angle, end_angle)` interval contains the
landing angle; the special case `landing_angle == 360.0` resolves to the
last wedge; no match raises the out-of-range error.  A hit on the `<OTHER>`
wedge performs the other-resample with the landing angle as target angle;
otherwise the candidate at the wedge's index is returned with the landing
angle as target angle. -/
def select_token_from_angle (fullProbs : List ℚ) (d : Distribution)
    (landing_angle : ℚ) (decode : Nat → String) (choice : Nat) :
    Except GenError SampleResult :=
  let wedges := map_distribution_to_wedges d
  let tokens := d.tokens
  match findWedge wedges landing_angle with
  | some (i, selected_wedge) =>
      if selected_wedge.is_other then
        sample_from_other fullProbs d selected_wedge landing_angle decode choice
      else
        match tokens.get? i with
        | some selected_token =>
            .ok { token := selected_token.token
                  token_id := selected_token.token_id
                  probability := selected_token.probability
                  wedge_start := selected_wedge.start_angle
                  wedge_end := selected_wedge.end_angle
                  target_angle := landing_angle
                  is_other := false }
        | none => .error .indexError
  | none =>
      if landing_angle = 360 then
        match wedges.getLast? with
        | some selected_wedge =>
            if selected_wedge.is_other then
              sample_from_other fullProbs d selected_wedge landing_angle decode choice
            else
              match tokens.getLast? with
              | some selected_token =>
                  .ok { token := selected_token.token
                        token_id := selected_token.token_id
                        probability := selected_token.probability
                        wedge_start := selected_wedge.start_angle
                        wedge_end := selected_wedge.end_angle
                        target_angle := landing_angle
                        is_other := false }
              | none => .error .indexError
        | none => .error .indexError
      else .error (.outOfRange landing_angle)

/-- `TokenWheelGenerator.select_token_by_id` (generator.py): look the id up
among the main candidates (first match wins) and return it with a uniform
random target angle inside its wedge; the sentinel id `-1` takes the last
wedge and performs the other-resample with a uniform target angle inside
its bounds; any other unmatched id raises the not-found error. -/
def select_token_by_id (fullProbs : List ℚ) (d : Distribution)
    (token_id : Int) (decode : Nat → String) (uniform : ℚ → ℚ → ℚ)
    (choice : Nat) : Except GenError SampleResult :=
  let tokens := d.tokens
  let wedges := map_distribution_to_wedges d
  match List.findIdx? (fun t => t.token_id == token_id) tokens with
  | some i =>
      match tokens.get? i, wedges.get? i with
      | some t, some selected_wedge =>
          .ok { token := t.token
                token_id := t.token_id
                probability := t.probability
                wedge_start := selected_wedge.start_angle
                wedge_end := selected_wedge.end_angle
                target_angle := uniform selected_wedge.start_angle selected_wedge.end_angle
                is_other := false }
      | _, _ => .error .indexError
  | none =>
      if token_id = -1 then
        match wedges.getLast? with
        | some other_wedge =>
            sample_from_other fullProbs d other_wedge
              (uniform other_wedge.start_angle other_wedge.end_angle) decode choice
        | none => .error .indexError
      else .error (.notFound token_id)

/-- `TokenWheelGenerator.should_end_generation` (generator.py): stop on the
end-of-sequence token id, or when the tokenized length of the context has
reached `max_length` (the caller in main.py uses the default 50). -/
def should_end_generation (M : LanguageModel) (token_id : Int)
    (context : String) (max_length : Nat) : Bool :=
  if token_id = M.eos_token_id then true
  else if max_length ≤ M.encode_len context then true
  else false

/-- `SubTokenInfo` (main.py): one of the top tokens shown inside the
"other" category. -/
structure SubTokenInfo where
  token : String
  token_id : Int
  probability : ℚ
  deriving DecidableEq

/-- `WedgeInfo` (main.py): one entry of the token list sent to the
frontend by `get_tokens_with_probabilities`. -/
structure WedgeInfo where
  token : String
  token_id : Int
  probability : ℚ
  is_special : Bool
  is_other : Bool
  other_top_tokens : Option (List SubTokenInfo)
  remaining_count : Option Nat
  deriving DecidableEq

/-- The display name of the aggregate entry in
`get_tokens_with_probabilities`. -/
def REMAINING_TOKENS : String := "Remaining Tokens"

/-- `TokenWheelGenerator.get_tokens_with_probabilities` (generator.py): the
main candidates as plain entries, followed (when the remaining probability
is positive) by one aggregate entry whose `other_top_tokens` are the
`top_other_count` highest-probability excluded tokens (positive probability
only, sorted descending by the stable sort) and whose `remaining_count` is
the number of such excluded tokens.  The callers in main.py pass the
default `top_other_count = 5`. -/
def get_tokens_with_probabilities (M : LanguageModel) (d : Distribution)
    (top_other_count : Nat) : List WedgeInfo :=
  let tokens_list := d.tokens.map (fun t =>
    ({ token := t.token, token_id := t.token_id, probability := t.probability
       is_special := t.is_special, is_other := false
       other_top_tokens := none, remaining_count := none } : WedgeInfo))
  if d.remaining_probability > 0 then
    let probs_np := M.probs d.context
    let other_tokens := ((otherTokenIds probs_np d).filter
        (fun i => 0 < probs_np.getD i 0)).map
        (fun i => (i, probs_np.getD i 0))
    let sorted := sortByDesc (fun p => p.2) other_tokens
    let top_other_tokens := (sorted.take top_other_count).map (fun p =>
      ({ token := M.decode p.1, token_id := Int.ofNat p.1
         probability := p.2 } : SubTokenInfo))
    tokens_list ++
      [{ token := REMAINING_TOKENS, token_id := -1
         probability := d.remaining_probability
         is_special := false, is_other := true
         other_top_tokens := some top_other_tokens
         remaining_count := some other_tokens.length }]
  else tokens_list

/-- `SessionData` (main.py), the per-session mutable state: the generation
session of spec §4.4 (fields not touched by the claims, such as
`created_at` and `last_accessed` timestamps and the `model_key`, are
omitted as lifecycle-only). -/
structure SessionData where
  session_id : String
  current_context : String
  history : List String
  step : Nat
  min_threshold : ℚ
  secondary_threshold : ℚ
  current_distribution : Option Distribution
  deriving DecidableEq

/-- The `token_info` dict assembled by the `/api/select` handler. -/
structure TokenInfo where
  token_id : Int
  token : String
  probability : ℚ
  deriving DecidableEq

/-- `SelectResponse` (main.py), the response body of `/api/select`. -/
structure SelectResponse where
  selected_token : String
  selected_token_probability : ℚ
  new_context : String
  should_continue : Bool
  next_tokens : Option (List WedgeInfo)
  step : Nat
  deriving DecidableEq

/-- Validation of `StartRequest` (main.py): pydantic rejects an empty
prompt (`min_length=1`) and a `min_threshold` or `secondary_threshold`
outside `[0, 1]` (`ge=0.0, le=1.0`) with HTTP 422 before the handler runs. -/
def validate_start_request (prompt : String) (min_threshold : ℚ)
    (secondary_threshold : ℚ) : Bool :=
  decide (1 ≤ prompt.length) && decide (0 ≤ min_threshold) &&
  decide (min_threshold ≤ 1) && decide (0 ≤ secondary_threshold) &&
  decide (secondary_threshold ≤ 1)

/-- One-dimensional tensor indexing, `probabilities[selected_token_id]` on
a torch vector: a nonnegative index below the length, or a negative index
counting from the end; anything else raises an index error. -/
def tensorIndex (v : List ℚ) (i : Int) : Except GenError ℚ :=
  if 0 ≤ i ∧ i < Int.ofNat v.length then .ok (v.getD i.toNat 0)
  else if - Int.ofNat v.length ≤ i ∧ i < 0 then
    .ok (v.getD (v.length - (-i).toNat) 0)
  else .error .indexError

/-- Modelled from the spec: `generator._decode_token`, called by the
`/api/select` handler, is absent from the repository (the generator class
defines no such method).  Spec §6 gives the Vocabulary Model the capability
`decode(token_id: integer) → string`, which this models. -/
def decode_token (M : LanguageModel) (token_id : Int) : String :=
  M.decode token_id.toNat

/-- The `/api/select` handler `select_token` (main.py) as a state
transition on the session.  With no current distribution it fails (HTTP
400, the spec's InvalidState).  A concrete id (`≠ -1`) is resolved by
decoding it directly; its probability is looked up among the main
candidates and otherwise read from the full probability vector re-derived
for the distribution's context.  The sentinel `-1` is resolved through the
Sampler's `select_token_by_id`.  The token string is appended to the
context and the history and the step incremented; if generation continues,
a fresh distribution is built from the new context with the session's
stored thresholds and stored as the current distribution, otherwise the
response carries no next tokens and the session is returned as is. -/
def select_token (M : LanguageModel) (session : SessionData)
    (selected_token_id : Int) (uniform : ℚ → ℚ → ℚ) (choice : Nat) :
    Except GenError (SelectResponse × SessionData) :=
  match session.current_distribution with
  | none => .error .invalidState
  | some dist => do
    let token_info : TokenInfo ←
      if selected_token_id ≠ -1 then do
        let selected_token := decode_token M selected_token_id
        let token_probability ←
          match dist.tokens.find? (fun t => t.token_id == selected_token_id) with
          | some t => Except.ok t.probability
          | none => tensorIndex (M.probs dist.context) selected_token_id
        Except.ok ({ token_id := selected_token_id, token := selected_token
                     probability := token_probability } : TokenInfo)
      else do
        let r ← select_token_by_id (M.probs dist.context) dist (-1)
          M.decode uniform choice
        Except.ok ({ token_id := r.token_id, token := r.token
                     probability := r.probability } : TokenInfo)
    let new_context := session.current_context ++ token_info.token
    let session :=
      { session with current_context := new_context
                     history := session.history ++ [token_info.token]
                     step := session.step + 1 }
    let should_continue := ! should_end_generation M token_info.token_id new_context 50
    if should_continue then
      let next_distribution := get_next_token_distribution M new_context
        session.min_threshold session.secondary_threshold
      let next_tokens := get_tokens_with_probabilities M next_distribution 5
      let session := { session with current_distribution := some next_distribution }
      .ok ({ selected_token := token_info.token
             selected_token_probability := token_info.probability
             new_context := new_context, should_continue := true
             next_tokens := some next_tokens, step := session.step }, session)
    else
      .ok ({ selected_token := token_info.token
             selected_token_probability := token_info.probability
             new_context := new_context, should_continue := false
             next_tokens := none, step := session.step }, session)

/-! State-passing forms of the four sampling operations.  Each returns the
result together with the state of the distribution argument when the call
returns; the post-state is obtained by translating every assignment of the
source body, and none of them targets the distribution, its candidate list
or a candidate (the probability arrays built inside are fresh local lists,
`included_token_ids` is a fresh set, and the wedges are fresh dicts), so
the post-state is the argument itself. -/

/-- State-passing form of `_sample_from_other`. -/
def sample_from_other_st (fullProbs : List ℚ) (d : Distribution)
    (other_wedge : Wedge) (target_angle : ℚ) (decode : Nat → String)
    (choice : Nat) : Except GenError SampleResult × Distribution :=
  (sample_from_other fullProbs d other_wedge target_angle decode choice, d)

/-- State-passing form of `sample_token_from_distribution`. -/
def sample_token_from_distribution_st (fullProbs : List ℚ) (d : Distribution)
    (decode : Nat → String) (sample_idx : Nat) (uniform : ℚ → ℚ → ℚ)
    (choice : Nat) : Except GenError SampleResult × Distribution :=
  (sample_token_from_distribution fullProbs d decode sample_idx uniform choice, d)

/-- State-passing form of `select_token_from_angle`. -/
def select_token_from_angle_st (fullProbs : List ℚ) (d : Distribution)
    (landing_angle : ℚ) (decode : Nat → String) (choice : Nat) :
    Except GenError SampleResult × Distribution :=
  (select_token_from_angle fullProbs d landing_angle decode choice, d)

/-- State-passing form of `select_token_by_id`. -/
def select_token_by_id_st (fullProbs : List ℚ) (d : Distribution)
    (token_id : Int) (decode : Nat → String) (uniform : ℚ → ℚ → ℚ)
    (choice : Nat) : Except GenError SampleResult × Distribution :=
  (select_token_by_id fullProbs d token_id decode uniform choice, d)

/-! Concrete instances used by witnesses and counterexamples. -/

/-- A degenerate instance of the uniform-draw oracle: always the lower
bound of the wedge (a legitimate value of `np.random.uniform`). -/
def uniform0 : ℚ → ℚ → ℚ := fun a _ => a

/-- Decode oracle for the test models: the decimal numeral of the id. -/
def decode0 : Nat → String := fun i => Nat.repr i

/-- A one-character test context. -/
def ctx0 : String := "x"

/-- A test session id. -/
def sid0 : String := "s"

/-- Test model with a four-token vocabulary and next-token probabilities
(1/2, 3/10, 1/10, 1/10) for every context; end-of-sequence id 99 (never
drawn) and one-token contexts (far below the length limit). -/
def M1 : LanguageModel :=
  { probs := fun _ => [1/2, 3/10, 1/10, 1/10]
    decode := decode0
    encode_len := fun _ => 1
    eos_token_id := 99
    all_special_ids := [] }

/-- Distribution built by `M1` at thresholds (3/10, 1/20): candidates are
ids 0 and 1, remaining probability 1/5. -/
def d1 : Distribution := get_next_token_distribution M1 ctx0 (3/10) (1/20)

/-- Session holding `d1` as its current distribution. -/
def s1 : SessionData :=
  { session_id := sid0, current_context := ctx0, history := [], step := 0
    min_threshold := 3/10, secondary_threshold := 1/20
    current_distribution := some d1 }

/-- Test model with a two-token vocabulary, probabilities (3/5, 2/5), and
end-of-sequence id 1, so selecting id 1 reaches the stop condition. -/
def M2 : LanguageModel :=
  { probs := fun _ => [3/5, 2/5]
    decode := decode0
    encode_len := fun _ => 1
    eos_token_id := 1
    all_special_ids := [] }

/-- Distribution built by `M2` at thresholds (1/10, 1/20): both tokens are
candidates, remaining probability 0. -/
def d2 : Distribution := get_next_token_distribution M2 ctx0 (1/10) (1/20)

/-- Session holding `d2` as its current distribution. -/
def s2 : SessionData :=
  { session_id := sid0, current_context := ctx0, history := [], step := 0
    min_threshold := 1/10, secondary_threshold := 1/20
    current_distribution := some d2 }

/-- The four-token vocabulary of the spec's scenario (§8), probabilities
(0.5, 0.3, 0.15, 0.05). -/
def M5 : LanguageModel :=
  { probs := fun _ => [1/2, 3/10, 3/20, 1/20]
    decode := decode0
    encode_len := fun _ => 1
    eos_token_id := 99
    all_special_ids := [] }

/-- Test model with a three-token vocabulary (1/2, 1/2, 0): at threshold
1/10 the candidates are ids 0 and 1, the remaining probability is exactly
0, and id 2 is the only excluded token. -/
def M10 : LanguageModel :=
  { probs := fun _ => [1/2, 1/2, 0]
    decode := decode0
    encode_len := fun _ => 1
    eos_token_id := 99
    all_special_ids := [] }

/-- Distribution built by `M10` at thresholds (1/10, 1/20): remaining
probability exactly 0, so no `<OTHER>` wedge is mapped. -/
def d10 : Distribution := get_next_token_distribution M10 ctx0 (1/10) (1/20)

/-- The response of advancing `s2` with the end-of-sequence id 1: the stop
is reached, so generation does not continue and no next tokens are sent. -/
def resp2 : SelectResponse :=
  { selected_token := decode0 1, selected_token_probability := 2/5
    new_context := ctx0 ++ decode0 1, should_continue := false
    next_tokens := none, step := 1 }

/-- The session state after advancing `s2` with the end-of-sequence id 1:
step incremented, context and history extended, and the pre-stop
distribution `d2` still stored. -/
def s2stop : SessionData :=
  { session_id := sid0, current_context := ctx0 ++ decode0 1
    history := [decode0 1], step := 1
    min_threshold := 1/10, secondary_threshold := 1/20
    current_distribution := some d2 }

/-- The fresh distribution built when `s1` advances with token id 0. -/
def d1next : Distribution :=
  get_next_token_distribution M1 (ctx0 ++ decode0 0) (3/10) (1/20)

/-- The response of advancing `s1` with the candidate id 0. -/
def resp8 : SelectResponse :=
  { selected_token := decode0 0, selected_token_probability := 1/2
    new_context := ctx0 ++ decode0 0, should_continue := true
    next_tokens := some (get_tokens_with_probabilities M1 d1next 5), step := 1 }

/-- The session state after advancing `s1` with the candidate id 0. -/
def s8 : SessionData :=
  { session_id := sid0, current_context := ctx0 ++ decode0 0
    history := [decode0 0], step := 1
    min_threshold := 3/10, secondary_threshold := 1/20
    current_distribution := some d1next }

/-- Test model with a two-token vocabulary (1, 0): at primary threshold 0
the zero-probability token becomes a candidate. -/
def M7 : LanguageModel :=
  { probs := fun _ => [1, 0]
    decode := decode0
    encode_len := fun _ => 1
    eos_token_id := 99
    all_special_ids := [] }

/-- Distribution built by `M7` at thresholds (0, 0): both tokens are
candidates (probabilities 1 and 0), remaining probability 0.  A valid
Distribution of the data model (probabilities in [0,1] summing with the
remaining mass to 1) built from in-range thresholds. -/
def d7 : Distribution := get_next_token_distribution M7 ctx0 0 0

/-! ## Structural lemmas about the wedge-building loop -/

/-- The final accumulated angle of the wedge loop is the start plus 360
times the candidates' probability mass. -/
theorem wedgesFrom_snd (ts : List TokenCandidate) (cur : ℚ) :
    (wedgesFrom ts cur).2 = cur + 360 * candProbSum ts := by
  induction ts generalizing cur with
  | nil => simp [wedgesFrom, candProbSum]
  | cons t ts ih =>
    simp only [wedgesFrom, candProbSum, List.map_cons, List.sum_cons] at *
    rw [ih]
    ring

/-- The wedge loop yields one wedge per candidate. -/
theorem wedgesFrom_length (ts : List TokenCandidate) (cur : ℚ) :
    (wedgesFrom ts cur).1.length = ts.length := by
  induction ts generalizing cur with
  | nil => rfl
  | cons t ts ih => simp [wedgesFrom, ih]

/-- No wedge of the loop is the aggregate wedge. -/
theorem wedgesFrom_is_other (ts : List TokenCandidate) (cur : ℚ) :
    ∀ w ∈ (wedgesFrom ts cur).1, w.is_other = false := by
  induction ts generalizing cur with
  | nil => simp [wedgesFrom]
  | cons t ts ih =>
    intro w hw
    simp only [wedgesFrom, List.mem_cons] at hw
    rcases hw with h | h
    · subst h; rfl
    · exact ih _ w h

/-- The first wedge of the loop starts at the accumulated angle. -/
theorem wedgesFrom_head_start (ts : List TokenCandidate) (cur : ℚ) :
    ∀ w ∈ ((wedgesFrom ts cur).1).head?, w.start_angle = cur := by
  cases ts with
  | nil => simp [wedgesFrom]
  | cons t ts =>
    intro w hw
    simp only [wedgesFrom, List.head?_cons, Option.mem_def, Option.some.injEq] at hw
    subst hw; rfl

/-- The last wedge of the loop ends at the final accumulated angle. -/
theorem wedgesFrom_getLast_end (ts : List TokenCandidate) (cur : ℚ) :
    ∀ w ∈ ((wedgesFrom ts cur).1).getLast?, w.end_angle = (wedgesFrom ts cur).2 := by
  induction ts generalizing cur with
  | nil => simp [wedgesFrom]
  | cons t ts ih =>
    intro w hw
    cases hts : ts with
    | nil =>
      subst hts
      simp only [wedgesFrom, List.getLast?_singleton, Option.mem_def,
        Option.some.injEq] at hw ⊢
      subst hw; rfl
    | cons t' ts' =>
      subst hts
      have heq : ((wedgesFrom (t :: t' :: ts') cur).1).getLast? =
          ((wedgesFrom (t' :: ts') (cur + t.probability * 360)).1).getLast? := rfl
      rw [heq] at hw
      exact ih _ w hw

/-- Consecutive wedges of the loop share their boundary. -/
theorem wedgesFrom_chain (ts : List TokenCandidate) (cur : ℚ) :
    List.Chain' (fun a b => a.end_angle = b.start_angle) (wedgesFrom ts cur).1 := by
  induction ts generalizing cur with
  | nil => simp [wedgesFrom]
  | cons t ts ih =>
    refine List.chain'_cons'.mpr ⟨?_, ih _⟩
    intro b hb
    have := wedgesFrom_head_start ts (cur + t.probability * 360) b hb
    simp [wedgesFrom, this]

/-- Pointwise correspondence: the `i`-th wedge of the loop carries the
token, id, probability and non-other flag of the `i`-th candidate. -/
theorem wedgesFrom_get? (ts : List TokenCandidate) (cur : ℚ) (i : Nat) :
    ((wedgesFrom ts cur).1.get? i).map
        (fun w => (w.token, w.token_id, w.probability, w.is_other))
      = (ts.get? i).map (fun t => (t.token, t.token_id, t.probability, false)) := by
  induction ts generalizing cur i with
  | nil => simp [wedgesFrom]
  | cons t ts ih =>
    cases i with
    | zero => simp [wedgesFrom]
    | succ n =>
      simp only [wedgesFrom, List.get?_cons_succ]
      exact ih _ n

/-- A candidate list of nonnegative probabilities has nonnegative mass. -/
theorem candProbSum_nonneg (ts : List TokenCandidate)
    (h : ∀ t ∈ ts, 0 ≤ t.probability) : 0 ≤ candProbSum ts := by
  induction ts with
  | nil => simp [candProbSum]
  | cons t ts ih =>
    simp only [candProbSum, List.map_cons, List.sum_cons]
    have h1 := h t (by simp)
    have h2 : 0 ≤ candProbSum ts := ih (fun x hx => h x (by simp [hx]))
    simp only [candProbSum] at h2
    linarith

/-- Bounds of the loop's wedges under nonnegative probabilities: each lies
between the starting and the final accumulated angle, with nonnegative
width. -/
theorem wedgesFrom_bounds (ts : List TokenCandidate) (cur : ℚ)
    (hp : ∀ t ∈ ts, 0 ≤ t.probability) :
    ∀ w ∈ (wedgesFrom ts cur).1,
      cur ≤ w.start_angle ∧ w.start_angle ≤ w.end_angle ∧
        w.end_angle ≤ (wedgesFrom ts cur).2 := by
  induction ts generalizing cur with
  | nil => simp [wedgesFrom]
  | cons t ts ih =>
    intro w hw
    have hpt : 0 ≤ t.probability := hp t (by simp)
    have hps : ∀ x ∈ ts, 0 ≤ x.probability := fun x hx => hp x (by simp [hx])
    have hsum : 0 ≤ candProbSum ts := candProbSum_nonneg ts hps
    have hsnd := wedgesFrom_snd ts (cur + t.probability * 360)
    simp only [wedgesFrom, List.mem_cons] at hw ⊢
    rcases hw with h | h
    · subst h
      refine ⟨le_refl _, by dsimp only; nlinarith, ?_⟩
      dsimp only
      simp only [hsnd]
      nlinarith
    · have := ih (cur + t.probability * 360) hps w h
      exact ⟨by nlinarith [this.1], this.2.1, this.2.2⟩

/-- Strict bounds of the loop's wedges under strictly positive
probabilities: each wedge has strictly positive width. -/
theorem wedgesFrom_bounds_strict (ts : List TokenCandidate) (cur : ℚ)
    (hp : ∀ t ∈ ts, 0 < t.probability) :
    ∀ w ∈ (wedgesFrom ts cur).1,
      cur ≤ w.start_angle ∧ w.start_angle < w.end_angle ∧
        w.end_angle ≤ (wedgesFrom ts cur).2 := by
  induction ts generalizing cur with
  | nil => simp [wedgesFrom]
  | cons t ts ih =>
    intro w hw
    have hpt : 0 < t.probability := hp t (by simp)
    have hps : ∀ x ∈ ts, 0 < x.probability := fun x hx => hp x (by simp [hx])
    have hsum : 0 ≤ candProbSum ts :=
      candProbSum_nonneg ts (fun x hx => le_of_lt (hps x hx))
    have hsnd := wedgesFrom_snd ts (cur + t.probability * 360)
    simp only [wedgesFrom, List.mem_cons] at hw ⊢
    rcases hw with h | h
    · subst h
      refine ⟨le_refl _, by dsimp only; nlinarith, ?_⟩
      dsimp only
      simp only [hsnd]
      nlinarith
    · have := ih (cur + t.probability * 360) hps w h
      exact ⟨by nlinarith [this.1], this.2.1, this.2.2⟩

/-! ## Lemmas about the linear wedge scan -/

/-- Soundness of the linear scan: a hit returns an element of the list at
the reported index, and the landing angle lies in its half-open interval. -/
theorem findWedge_some (ws : List Wedge) (θ : ℚ) (i : Nat) (w : Wedge)
    (h : findWedge ws θ = some (i, w)) :
    ws.get? i = some w ∧ w.start_angle ≤ θ ∧ θ < w.end_angle := by
  induction ws generalizing i with
  | nil => simp [findWedge] at h
  | cons a l ih =>
    by_cases hc : a.start_angle ≤ θ ∧ θ < a.end_angle
    · simp only [findWedge, if_pos hc, Option.some.injEq, Prod.mk.injEq] at h
      obtain ⟨h1, h2⟩ := h
      subst h1; subst h2
      exact ⟨rfl, hc⟩
    · simp only [findWedge, if_neg hc, Option.map_eq_some'] at h
      obtain ⟨p, hp, hpe⟩ := h
      obtain ⟨h1, h2⟩ := Prod.mk.injEq .. ▸ hpe
      cases i with
      | zero => omega
      | succ n =>
        have hn : p.1 = n := by omega
        have := ih n (by rw [← h2, ← hn]; exact hp)
        simpa using this

/-- Completeness of the linear scan: a miss means no wedge's half-open
interval contains the landing angle. -/
theorem findWedge_none (ws : List Wedge) (θ : ℚ) :
    findWedge ws θ = none ↔
      ∀ w ∈ ws, ¬ (w.start_angle ≤ θ ∧ θ < w.end_angle) := by
  induction ws with
  | nil => simp [findWedge]
  | cons a l ih =>
    by_cases hc : a.start_angle ≤ θ ∧ θ < a.end_angle
    · simp [findWedge, hc]
    · have hstep : findWedge (a :: l) θ =
          (findWedge l θ).map (fun p => (p.1 + 1, p.2)) := by
        simp [findWedge, hc]
      rw [hstep, Option.map_eq_none', ih]
      constructor
      · intro h w hw
        rcases List.mem_cons.mp hw with he | hm
        · subst he; exact hc
        · exact h w hm
      · intro h w hw
        exact h w (List.mem_cons_of_mem a hw)

/-- In a contiguous list of wedges, the start of the first wedge bounds the
start of every wedge from below. -/
theorem wedges_start_mono_head (l : List Wedge)
    (hchain : List.Chain' (fun a b => a.end_angle = b.start_angle) l)
    (hw : ∀ w ∈ l, w.start_angle ≤ w.end_angle) :
    ∀ n wn, l.get? n = some wn → ∀ b ∈ l.head?, b.start_angle ≤ wn.start_angle := by
  induction l with
  | nil => intro n wn h; simp at h
  | cons a l ih =>
    intro n wn hn b hb
    simp only [List.head?_cons, Option.mem_def, Option.some.injEq] at hb
    subst hb
    cases n with
    | zero =>
      simp only [List.get?_cons_zero, Option.some.injEq] at hn
      subst hn; exact le_refl _
    | succ m =>
      simp only [List.get?_cons_succ] at hn
      cases l with
      | nil => simp at hn
      | cons c l' =>
        have hac : a.end_angle = c.start_angle := (List.chain'_cons.mp hchain).1
        have hch' := (List.chain'_cons.mp hchain).2
        have hw' : ∀ w ∈ c :: l', w.start_angle ≤ w.end_angle :=
          fun w hwm => hw w (List.mem_cons_of_mem a hwm)
        have := ih hch' hw' m wn hn c (by simp)
        have haw : a.start_angle ≤ a.end_angle := hw a (by simp)
        calc a.start_angle ≤ a.end_angle := haw
          _ = c.start_angle := hac
          _ ≤ wn.start_angle := this

/-- In a contiguous list of wedges of nonnegative width, an earlier wedge
ends no later than a later wedge starts. -/
theorem wedges_mono (l : List Wedge)
    (hchain : List.Chain' (fun a b => a.end_angle = b.start_angle) l)
    (hw : ∀ w ∈ l, w.start_angle ≤ w.end_angle) :
    ∀ i j wi wj, i < j → l.get? i = some wi → l.get? j = some wj →
      wi.end_angle ≤ wj.start_angle := by
  induction l with
  | nil => intro i j wi wj _ h; simp at h
  | cons a l ih =>
    intro i j wi wj hij hi hj
    cases i with
    | zero =>
      simp only [List.get?_cons_zero, Option.some.injEq] at hi
      subst hi
      cases j with
      | zero => omega
      | succ m =>
        simp only [List.get?_cons_succ] at hj
        cases l with
        | nil => simp at hj
        | cons c l' =>
          have hac : a.end_angle = c.start_angle := (List.chain'_cons.mp hchain).1
          have hch' := (List.chain'_cons.mp hchain).2
          have hw' : ∀ w ∈ c :: l', w.start_angle ≤ w.end_angle :=
            fun w hwm => hw w (List.mem_cons_of_mem a hwm)
          have := wedges_start_mono_head (c :: l') hch' hw' m wj hj c (by simp)
          rw [hac]
          exact this
    | succ k =>
      cases j with
      | zero => omega
      | succ m =>
        simp only [List.get?_cons_succ] at hi hj
        exact ih (List.chain'_cons'.mp hchain).2
          (fun w hwm => hw w (List.mem_cons_of_mem a hwm))
          k m wi wj (by omega) hi hj

/-- In a contiguous list of wedges of nonnegative width, at most one wedge's
half-open interval contains a given angle. -/
theorem wedge_match_unique (l : List Wedge)
    (hchain : List.Chain' (fun a b => a.end_angle = b.start_angle) l)
    (hw : ∀ w ∈ l, w.start_angle ≤ w.end_angle) (θ : ℚ) :
    ∀ i j wi wj, l.get? i = some wi → l.get? j = some wj →
      wi.start_angle ≤ θ → θ < wi.end_angle →
      wj.start_angle ≤ θ → θ < wj.end_angle → i = j := by
  intro i j wi wj hi hj hi1 hi2 hj1 hj2
  rcases lt_trichotomy i j with hlt | heq | hgt
  · exact absurd (wedges_mono l hchain hw i j wi wj hlt hi hj) (by linarith)
  · exact heq
  · exact absurd (wedges_mono l hchain hw j i wj wi hgt hj hi) (by linarith)

/-- Coverage of a contiguous wedge list: an angle at or after the first
start and strictly before the last end lies in some wedge. -/
theorem wedges_cover (l : List Wedge)
    (hchain : List.Chain' (fun a b => a.end_angle = b.start_angle) l) (θ : ℚ) :
    ∀ w0 ∈ l.head?, ∀ wl ∈ l.getLast?, w0.start_angle ≤ θ → θ < wl.end_angle →
      ∃ w ∈ l, w.start_angle ≤ θ ∧ θ < w.end_angle := by
  induction l with
  | nil => simp
  | cons a l ih =>
    intro w0 hw0 wl hwl h0 h1
    simp only [List.head?_cons, Option.mem_def, Option.some.injEq] at hw0
    subst hw0
    cases l with
    | nil =>
      simp only [List.getLast?_singleton, Option.mem_def, Option.some.injEq] at hwl
      subst hwl
      exact ⟨a, by simp, h0, h1⟩
    | cons b l' =>
      by_cases hc : θ < a.end_angle
      · exact ⟨a, by simp, h0, hc⟩
      · push_neg at hc
        have hab : a.end_angle = b.start_angle := (List.chain'_cons.mp hchain).1
        have hch' := (List.chain'_cons.mp hchain).2
        have hwl' : wl ∈ (b :: l').getLast? := hwl
        obtain ⟨w, hwm, hws⟩ :=
          ih hch' b (by simp) wl hwl' (by rw [← hab]; exact hc) h1
        exact ⟨w, List.mem_cons_of_mem a hwm, hws⟩

/-! ## Lemmas about the mapped wedge sequence of a distribution -/

/-- The mapped wedge sequence of any distribution is contiguous. -/
theorem map_wedges_chain (d : Distribution) :
    List.Chain' (fun a b => a.end_angle = b.start_angle)
      (map_distribution_to_wedges d) := by
  unfold map_distribution_to_wedges
  by_cases hrem : d.remaining_probability > 0
  · simp only [if_pos hrem]
    refine List.chain'_append.mpr ⟨wedgesFrom_chain _ _, List.chain'_singleton _, ?_⟩
    intro x hx y hy
    simp only [List.head?_cons, Option.mem_def, Option.some.injEq] at hy
    subst hy
    exact wedgesFrom_getLast_end d.tokens 0 x hx
  · simp only [if_neg hrem]
    exact wedgesFrom_chain _ _

/-- The mapped wedge sequence starts at angle 0. -/
theorem map_wedges_head_start (d : Distribution) :
    ∀ w ∈ (map_distribution_to_wedges d).head?, w.start_angle = 0 := by
  unfold map_distribution_to_wedges
  by_cases hrem : d.remaining_probability > 0
  · simp only [if_pos hrem]
    intro w hw
    cases hts : d.tokens with
    | nil =>
      rw [hts] at hw
      simp only [wedgesFrom, List.nil_append, List.head?_cons, Option.mem_def,
        Option.some.injEq] at hw
      subst hw
      show (wedgesFrom [] 0).2 = 0
      simp [wedgesFrom]
    | cons t ts =>
      rw [hts] at hw
      exact wedgesFrom_head_start (t :: ts) 0 w hw
  · simp only [if_neg hrem]
    exact wedgesFrom_head_start d.tokens 0

/-- Under the distribution invariant (probability mass plus remaining
equals 1 and the remaining mass is nonnegative), the mapped wedge sequence
is nonempty. -/
theorem map_wedges_ne_nil (d : Distribution)
    (hsum : candProbSum d.tokens + d.remaining_probability = 1)
    (hrem : 0 ≤ d.remaining_probability) :
    map_distribution_to_wedges d ≠ [] := by
  unfold map_distribution_to_wedges
  by_cases h : d.remaining_probability > 0
  · simp [if_pos h]
  · simp only [if_neg h]
    have hrem0 : d.remaining_probability = 0 := le_antisymm (not_lt.mp h) hrem
    have hts : d.tokens ≠ [] := by
      intro he
      rw [he] at hsum
      simp [candProbSum, hrem0] at hsum
    cases hts' : d.tokens with
    | nil => exact absurd hts' hts
    | cons t ts => simp [wedgesFrom]

/-- Under the distribution invariant, the last mapped wedge ends at exactly
360. -/
theorem map_wedges_last_end (d : Distribution)
    (hsum : candProbSum d.tokens + d.remaining_probability = 1)
    (hrem : 0 ≤ d.remaining_probability) :
    ∀ w ∈ (map_distribution_to_wedges d).getLast?, w.end_angle = 360 := by
  unfold map_distribution_to_wedges
  by_cases h : d.remaining_probability > 0
  · simp only [if_pos h]
    intro w hw
    rw [List.getLast?_concat] at hw
    simp only [Option.mem_def, Option.some.injEq] at hw
    subst hw; rfl
  · simp only [if_neg h]
    intro w hw
    have hrem0 : d.remaining_probability = 0 := le_antisymm (not_lt.mp h) hrem
    have := wedgesFrom_getLast_end d.tokens 0 w hw
    rw [this, wedgesFrom_snd]
    rw [hrem0, add_zero] at hsum
    rw [hsum]
    ring

/-- Under the distribution invariant with nonnegative candidate
probabilities, every mapped wedge has nonnegative width. -/
theorem map_wedges_width_nonneg (d : Distribution)
    (hp : ∀ t ∈ d.tokens, 0 ≤ t.probability)
    (hsum : candProbSum d.tokens + d.remaining_probability = 1)
    (hrem : 0 ≤ d.remaining_probability) :
    ∀ w ∈ map_distribution_to_wedges d, w.start_angle ≤ w.end_angle := by
  unfold map_distribution_to_wedges
  have hbase : ∀ w ∈ (wedgesFrom d.tokens 0).1, w.start_angle ≤ w.end_angle :=
    fun w hw => (wedgesFrom_bounds d.tokens 0 hp w hw).2.1
  by_cases h : d.remaining_probability > 0
  · simp only [if_pos h]
    intro w hw
    rcases List.mem_append.mp hw with hm | hm
    · exact hbase w hm
    · simp only [List.mem_singleton] at hm
      subst hm
      show (wedgesFrom d.tokens 0).2 ≤ (360 : ℚ)
      rw [wedgesFrom_snd]
      nlinarith
  · simp only [if_neg h]
    exact hbase

/-- Pointwise correspondence between a distribution's candidates and its
mapped non-other wedges: a non-other wedge at index `i` carries the fields
of the candidate at index `i`. -/
theorem map_wedges_get?_token (d : Distribution) (i : Nat) (w : Wedge)
    (hw : (map_distribution_to_wedges d).get? i = some w)
    (hno : w.is_other = false) :
    ∃ t, d.tokens.get? i = some t ∧ w.token = t.token ∧
      w.token_id = t.token_id ∧ w.probability = t.probability := by
  unfold map_distribution_to_wedges at hw
  by_cases h : d.remaining_probability > 0
  · simp only [if_pos h] at hw
    by_cases hi : i < (wedgesFrom d.tokens 0).1.length
    · rw [List.get?_append hi] at hw
      have := wedgesFrom_get? d.tokens 0 i
      rw [hw] at this
      cases ht : d.tokens.get? i with
      | none => rw [ht] at this; simp at this
      | some t =>
        rw [ht] at this
        simp only [Option.map_some', Option.some.injEq, Prod.mk.injEq] at this
        exact ⟨t, rfl, this.1, this.2.1, this.2.2.1⟩
    · push_neg at hi
      have hlen := List.get?_eq_some.mp hw
      have hlt := hlen.1
      simp only [List.length_append, List.length_singleton] at hlt
      have hieq : i = (wedgesFrom d.tokens 0).1.length := by omega
      rw [hieq, List.get?_append_right (le_refl _)] at hw
      simp only [Nat.sub_self, List.get?_cons_zero, Option.some.injEq] at hw
      subst hw
      simp at hno
  · simp only [if_neg h] at hw
    have := wedgesFrom_get? d.tokens 0 i
    rw [hw] at this
    cases ht : d.tokens.get? i with
    | none => rw [ht] at this; simp at this
    | some t =>
      rw [ht] at this
      simp only [Option.map_some', Option.some.injEq, Prod.mk.injEq] at this
      exact ⟨t, rfl, this.1, this.2.1, this.2.2.1⟩

/-! ## Lemmas about the stable descending sort -/

/-- Inserting is a permutation of prepending. -/
theorem insertByDesc_perm {α : Type} (key : α → ℚ) (c : α) (l : List α) :
    List.Perm (insertByDesc key c l) (c :: l) := by
  induction l with
  | nil => exact List.Perm.refl _
  | cons d ds ih =>
    unfold insertByDesc
    by_cases h : key d ≤ key c
    · simp only [if_pos h]
      exact List.Perm.refl _
    · simp only [if_neg h]
      exact (ih.cons d).trans (List.Perm.swap c d ds)

/-- The stable descending sort is a permutation of its input. -/
theorem sortByDesc_perm {α : Type} (key : α → ℚ) (l : List α) :
    List.Perm (sortByDesc key l) l := by
  induction l with
  | nil => exact List.Perm.refl _
  | cons x xs ih =>
    exact (insertByDesc_perm key x (sortByDesc key xs)).trans (ih.cons x)

/-- Sorting preserves membership. -/
theorem sortByDesc_mem {α : Type} (key : α → ℚ) (l : List α) (a : α) :
    a ∈ sortByDesc key l ↔ a ∈ l :=
  (sortByDesc_perm key l).mem_iff

/-- Sorting preserves the probability mass of a candidate list. -/
theorem sortByDesc_candProbSum (ts : List TokenCandidate) :
    candProbSum (sortByDesc (fun t => t.probability) ts) = candProbSum ts :=
  List.Perm.sum_eq ((sortByDesc_perm _ ts).map (fun t => t.probability))

/-- When the remaining mass after the primary pass exceeds 0.2, the builder
returns the sorted concatenation of the primary and secondary selections,
with the remaining mass recomputed over that concatenation. -/
theorem get_next_tokens_of_secondary (M : LanguageModel) (context : String)
    (mt st : ℚ)
    (h : 1 - candProbSum ((primaryIds (M.probs context) mt).map
        (mkCandidate M (M.probs context))) > 1/5) :
    (get_next_token_distribution M context mt st).tokens =
      sortByDesc (fun t => t.probability)
        ((primaryIds (M.probs context) mt).map (mkCandidate M (M.probs context)) ++
         (secondaryIds (M.probs context) mt st).map (mkCandidate M (M.probs context))) ∧
    (get_next_token_distribution M context mt st).remaining_probability =
      1 - candProbSum
        ((primaryIds (M.probs context) mt).map (mkCandidate M (M.probs context)) ++
         (secondaryIds (M.probs context) mt st).map (mkCandidate M (M.probs context))) := by
  unfold get_next_token_distribution
  simp only []
  rw [if_pos h]
  exact ⟨rfl, rfl⟩

/-- Field correspondence between the last wedge of the loop and the last
candidate. -/
theorem wedgesFrom_getLast?_token (ts : List TokenCandidate) (w : Wedge)
    (hw : ((wedgesFrom ts 0).1).getLast? = some w) :
    ∃ t, ts.getLast? = some t ∧ w.token = t.token ∧
      w.token_id = t.token_id ∧ w.probability = t.probability := by
  have hlen := wedgesFrom_length ts 0
  have hget := wedgesFrom_get? ts 0 (ts.length - 1)
  rw [List.getLast?_eq_get?, hlen] at hw
  rw [hw] at hget
  cases ht : ts.get? (ts.length - 1) with
  | none => rw [ht] at hget; simp at hget
  | some t =>
    rw [ht] at hget
    simp only [Option.map_some', Option.some.injEq, Prod.mk.injEq] at hget
    refine ⟨t, ?_, hget.1, hget.2.1, hget.2.2.1⟩
    rw [List.getLast?_eq_get?]
    exact ht

/-- When the remaining probability is positive, the last mapped wedge is
the terminal "other" wedge. -/
theorem map_wedges_getLast_of_pos (d : Distribution)
    (hpos : 0 < d.remaining_probability) :
    (map_distribution_to_wedges d).getLast? =
      some { token := OTHER_TOKEN, token_id := -1
             probability := d.remaining_probability
             start_angle := (wedgesFrom d.tokens 0).2, end_angle := 360
             is_special := false, is_other := true } := by
  unfold map_distribution_to_wedges
  rw [if_pos hpos, List.getLast?_concat]

/-- An "other" wedge appears in the mapped sequence only when the remaining
probability is positive. -/
theorem map_wedges_other_of_pos (d : Distribution) (w : Wedge)
    (hw : w ∈ map_distribution_to_wedges d) (ho : w.is_other = true) :
    0 < d.remaining_probability := by
  by_contra hneg
  have : map_distribution_to_wedges d = (wedgesFrom d.tokens 0).1 := by
    unfold map_distribution_to_wedges
    rw [if_neg hneg]
  rw [this] at hw
  have := wedgesFrom_is_other d.tokens 0 w hw
  rw [this] at ho
  exact Bool.noConfusion ho

/-- Successful reduction of the other-resample on a nonempty excluded
vocabulary: the result is the drawn excluded token with the supplied
wedge's bounds and the supplied target angle. -/
theorem sample_from_other_ok (fullProbs : List ℚ) (d : Distribution)
    (w : Wedge) (target : ℚ) (decode : Nat → String) (c : Nat)
    (hx : otherTokenIds fullProbs d ≠ []) :
    sample_from_other fullProbs d w target decode c =
      .ok { token := decode ((otherTokenIds fullProbs d).getD
              (c % (otherTokenIds fullProbs d).length) 0)
            token_id := Int.ofNat ((otherTokenIds fullProbs d).getD
              (c % (otherTokenIds fullProbs d).length) 0)
            probability := fullProbs.getD ((otherTokenIds fullProbs d).getD
              (c % (otherTokenIds fullProbs d).length) 0) 0
            wedge_start := w.start_angle, wedge_end := w.end_angle
            target_angle := target, is_other := true } := by
  unfold sample_from_other
  dsimp only []
  rw [if_neg (by simp only [List.isEmpty_iff]; exact hx)]

/-! ## Lemmas about the session advance transition -/

/-- Shape of the tail of the `/api/select` transition, after the selected
token has been resolved to `info`: every successful outcome extends the
context by the token, appends it to the history, increments the step, and —
when generation stops — leaves the stored distribution untouched and sends
no next tokens. -/
theorem select_token_tail_shape (M : LanguageModel) (s : SessionData)
    (cd0 : Option Distribution) (info : TokenInfo) (resp : SelectResponse)
    (s' : SessionData)
    (h : (let new_context := s.current_context ++ info.token
          let session : SessionData :=
            { s with current_context := new_context
                     history := s.history ++ [info.token]
                     step := s.step + 1
                     current_distribution := cd0 }
          let should_continue := ! should_end_generation M info.token_id new_context 50
          if should_continue then
            let next_distribution := get_next_token_distribution M new_context
              session.min_threshold session.secondary_threshold
            let next_tokens := get_tokens_with_probabilities M next_distribution 5
            let session := { session with current_distribution := some next_distribution }
            Except.ok ({ selected_token := info.token
                         selected_token_probability := info.probability
                         new_context := new_context, should_continue := true
                         next_tokens := some next_tokens, step := session.step }, session)
          else
            Except.ok ({ selected_token := info.token
                         selected_token_probability := info.probability
                         new_context := new_context, should_continue := false
                         next_tokens := none, step := session.step }, session))
        = (Except.ok (resp, s') : Except GenError (SelectResponse × SessionData))) :
    s'.current_context = s.current_context ++ resp.selected_token ∧
    s'.history = s.history ++ [resp.selected_token] ∧
    s'.step = s.step + 1 ∧
    resp.step = s.step + 1 ∧
    resp.selected_token = info.token ∧
    resp.selected_token_probability = info.probability ∧
    (resp.should_continue = false →
      s'.current_distribution = cd0 ∧
      resp.next_tokens = none) := by
  dsimp only [] at h
  cases hsc : should_end_generation M info.token_id (s.current_context ++ info.token) 50 with
  | false =>
    rw [hsc] at h
    simp only [Bool.not_false, if_true] at h
    simp only [Except.ok.injEq, Prod.mk.injEq] at h
    obtain ⟨h1, h2⟩ := h
    subst h1; subst h2
    refine ⟨rfl, rfl, rfl, rfl, rfl, rfl, ?_⟩
    intro hcontra
    exact Bool.noConfusion hcontra
  | true =>
    rw [hsc] at h
    rw [if_neg (show ¬ ((!true) = true) from by decide)] at h
    simp only [Except.ok.injEq, Prod.mk.injEq] at h
    obtain ⟨h1, h2⟩ := h
    subst h1; subst h2
    exact ⟨rfl, rfl, rfl, rfl, rfl, rfl, fun _ => ⟨rfl, rfl⟩⟩

/-- Shape of every successful `/api/select` transition: the session is
mutated by exactly one context extension, one history append and one step
increment, and a stopping advance keeps the stored distribution and sends
no next tokens. -/
theorem select_token_ok_shape (M : LanguageModel) (s : SessionData) (id : Int)
    (u : ℚ → ℚ → ℚ) (c : Nat) (resp : SelectResponse) (s' : SessionData)
    (h : select_token M s id u c = .ok (resp, s')) :
    s'.current_context = s.current_context ++ resp.selected_token ∧
    s'.history = s.history ++ [resp.selected_token] ∧
    s'.step = s.step + 1 ∧
    resp.step = s.step + 1 ∧
    (resp.should_continue = false →
      s'.current_distribution = s.current_distribution ∧
      resp.next_tokens = none) := by
  unfold select_token at h
  cases hcd : s.current_distribution with
  | none => rw [hcd] at h; exact absurd h (by simp)
  | some d =>
    rw [hcd] at h
    dsimp only [] at h
    by_cases hne : id ≠ -1
    · rw [if_pos hne] at h
      cases hf : d.tokens.find? (fun t => t.token_id == id) with
      | some t =>
        rw [hf] at h
        dsimp only [Bind.bind, Monad.toBind, Except.instMonad, Except.bind] at h
        have hs := select_token_tail_shape M s (some d)
          { token_id := id, token := decode_token M id, probability := t.probability }
          resp s' h
        exact ⟨hs.1, hs.2.1, hs.2.2.1, hs.2.2.2.1, hs.2.2.2.2.2.2⟩
      | none =>
        rw [hf] at h
        cases hti : tensorIndex (M.probs d.context) id with
        | error e =>
          rw [hti] at h
          dsimp only [Bind.bind, Monad.toBind, Except.instMonad, Except.bind] at h
          exact absurd h (by simp)
        | ok p =>
          rw [hti] at h
          dsimp only [Bind.bind, Monad.toBind, Except.instMonad, Except.bind] at h
          have hs := select_token_tail_shape M s (some d)
            { token_id := id, token := decode_token M id, probability := p }
            resp s' h
          exact ⟨hs.1, hs.2.1, hs.2.2.1, hs.2.2.2.1, hs.2.2.2.2.2.2⟩
    · rw [if_neg hne] at h
      cases hby : select_token_by_id (M.probs d.context) d (-1) M.decode u c with
      | error e =>
        rw [hby] at h
        dsimp only [Bind.bind, Monad.toBind, Except.instMonad, Except.bind] at h
        exact absurd h (by simp)
      | ok r =>
        rw [hby] at h
        dsimp only [Bind.bind, Monad.toBind, Except.instMonad, Except.bind] at h
        have hs := select_token_tail_shape M s (some d)
          { token_id := r.token_id, token := r.token, probability := r.probability }
          resp s' h
        exact ⟨hs.1, hs.2.1, hs.2.2.1, hs.2.2.2.1, hs.2.2.2.2.2.2⟩

/-- The `/api/select` transition succeeds for every token id that validly
indexes the vocabulary, whenever the session holds a distribution. -/
theorem select_token_isOk (M : LanguageModel) (s : SessionData)
    (d : Distribution) (id : Int) (u : ℚ → ℚ → ℚ) (c : Nat)
    (hd : s.current_distribution = some d) (hid : 0 ≤ id)
    (hlen : id < Int.ofNat (M.probs d.context).length) :
    (select_token M s id u c).isOk = true := by
  have hne : id ≠ -1 := by omega
  unfold select_token
  rw [hd]
  dsimp only []
  rw [if_pos hne]
  cases hf : d.tokens.find? (fun t => t.token_id == id) with
  | some t =>
    dsimp only [Bind.bind, Monad.toBind, Except.instMonad, Except.bind]
    cases hsc : should_end_generation M id (s.current_context ++ decode_token M id) 50 with
    | false => simp [hsc, Except.isOk, Except.toBool]
    | true => simp [hsc, Except.isOk, Except.toBool]
  | none =>
    have hti : tensorIndex (M.probs d.context) id =
        .ok ((M.probs d.context).getD id.toNat 0) := by
      unfold tensorIndex
      rw [if_pos ⟨hid, hlen⟩]
    rw [hti]
    dsimp only [Bind.bind, Monad.toBind, Except.instMonad, Except.bind]
    cases hsc : should_end_generation M id (s.current_context ++ decode_token M id) 50 with
    | false => simp [hsc, Except.isOk, Except.toBool]
    | true => simp [hsc, Except.isOk, Except.toBool]

/-- For a concrete id absent from the candidates but validly indexing the
vocabulary, the `/api/select` transition succeeds, resolving the token by
direct decode and its probability from the full probability vector. -/
theorem select_token_unmatched_ok (M : LanguageModel) (s : SessionData)
    (d : Distribution) (id : Int) (u : ℚ → ℚ → ℚ) (c : Nat)
    (hd : s.current_distribution = some d) (hid : 0 ≤ id)
    (hlen : id < Int.ofNat (M.probs d.context).length)
    (hnm : ∀ t ∈ d.tokens, t.token_id ≠ id) :
    ∃ resp s', select_token M s id u c = .ok (resp, s') ∧
      resp.selected_token = decode_token M id ∧
      resp.selected_token_probability = (M.probs d.context).getD id.toNat 0 := by
  have hne : id ≠ -1 := by omega
  have hf : d.tokens.find? (fun t => t.token_id == id) = none := by
    rw [List.find?_eq_none]
    intro t ht
    exact beq_eq_false_iff_ne.mpr (hnm t ht) ▸ (by simp [hnm t ht])
  have hti : tensorIndex (M.probs d.context) id =
      .ok ((M.probs d.context).getD id.toNat 0) := by
    unfold tensorIndex
    rw [if_pos ⟨hid, hlen⟩]
  cases hr : select_token M s id u c with
  | error e =>
    exfalso
    unfold select_token at hr
    rw [hd] at hr
    dsimp only [] at hr
    rw [if_pos hne, hf, hti] at hr
    dsimp only [Bind.bind, Monad.toBind, Except.instMonad, Except.bind] at hr
    cases hsc : should_end_generation M id (s.current_context ++ decode_token M id) 50 with
    | false => rw [hsc] at hr; simp at hr
    | true => rw [hsc] at hr; simp at hr
  | ok pr =>
    obtain ⟨presp, ps'⟩ := pr
    refine ⟨presp, ps', rfl, ?_, ?_⟩
    all_goals
      unfold select_token at hr
      rw [hd] at hr
      dsimp only [] at hr
      rw [if_pos hne, hf, hti] at hr
      dsimp only [Bind.bind, Monad.toBind, Except.instMonad, Except.bind] at hr
      have hs := select_token_tail_shape M s (some d)
        { token_id := id, token := decode_token M id
          probability := (M.probs d.context).getD id.toNat 0 }
        presp ps' hr
    · exact hs.2.2.2.2.1
    · exact hs.2.2.2.2.2.1

/-- The Sampler's `select_token_by_id` fails with the not-found error for
every non-sentinel id that matches no candidate. -/
theorem select_token_by_id_notFound (fullProbs : List ℚ) (d : Distribution)
    (id : Int) (decode : Nat → String) (u : ℚ → ℚ → ℚ) (c : Nat)
    (hne : id ≠ -1) (hnm : ∀ t ∈ d.tokens, t.token_id ≠ id) :
    select_token_by_id fullProbs d id decode u c = .error (.notFound id) := by
  unfold select_token_by_id
  have hfi : List.findIdx? (fun t => t.token_id == id) d.tokens = none := by
    rw [List.findIdx?_eq_none_iff]
    intro t ht
    simp [hnm t ht]
  dsimp only []
  rw [hfi]
  dsimp only []
  rw [if_neg hne]

/-! ## Claim theorems -/

/-- C3: For every Distribution satisfying the data-model invariant (the
candidates' probability mass plus `remaining_probability` equals 1, with
nonnegative remaining mass), the wedge sequence produced by the Wedge
Mapper is contiguous — each wedge's `end_angle` equals the next wedge's
`start_angle` — and the last wedge's `end_angle` equals exactly 360; in
particular when `remaining_probability > 0` the terminal "other" wedge
spans from the accumulated angle (360 times the candidates' probability
mass) to exactly 360. -/
theorem C3_wedges_contiguous_and_close_at_360 (d : Distribution)
    (hsum : candProbSum d.tokens + d.remaining_probability = 1)
    (hrem : 0 ≤ d.remaining_probability) :
    List.Chain' (fun a b => a.end_angle = b.start_angle)
        (map_distribution_to_wedges d) ∧
    (∃ wl, (map_distribution_to_wedges d).getLast? = some wl ∧
        wl.end_angle = 360) ∧
    (0 < d.remaining_probability →
      (map_distribution_to_wedges d).getLast? =
        some { token := OTHER_TOKEN, token_id := -1
               probability := d.remaining_probability
               start_angle := 360 * candProbSum d.tokens, end_angle := 360
               is_special := false, is_other := true }) := by
  refine ⟨map_wedges_chain d, ?_, ?_⟩
  · have hne := map_wedges_ne_nil d hsum hrem
    cases hl : (map_distribution_to_wedges d).getLast? with
    | none => exact absurd (List.getLast?_eq_none_iff.mp hl) hne
    | some wl =>
      exact ⟨wl, rfl, map_wedges_last_end d hsum hrem wl (Option.mem_def.mpr hl)⟩
  · intro hpos
    unfold map_distribution_to_wedges
    simp only [if_pos hpos]
    rw [List.getLast?_concat]
    have hacc : (wedgesFrom d.tokens 0).2 = 360 * candProbSum d.tokens := by
      rw [wedgesFrom_snd]; ring
    rw [hacc]

/-- Witness for C3 at the concrete distribution `d1` (remaining mass 1/5),
with both hypotheses discharged by evaluation. -/
theorem C3_witness :
    List.Chain' (fun a b => a.end_angle = b.start_angle)
        (map_distribution_to_wedges d1) ∧
    (∃ wl, (map_distribution_to_wedges d1).getLast? = some wl ∧
        wl.end_angle = 360) ∧
    (0 < d1.remaining_probability →
      (map_distribution_to_wedges d1).getLast? =
        some { token := OTHER_TOKEN, token_id := -1
               probability := d1.remaining_probability
               start_angle := 360 * candProbSum d1.tokens, end_angle := 360
               is_special := false, is_other := true }) :=
  C3_wedges_contiguous_and_close_at_360 d1
    (by with_unfolding_all decide) (by with_unfolding_all decide)

/-- C7 counterexample: the claim fails as stated.  The Distribution Builder
applied to the valid probability vector (1, 0) — entries in [0,1], summing
to 1 — with the in-range thresholds (0, 0) produces the distribution `d7`
containing a zero-probability candidate, and the Wedge Mapper then emits a
degenerate wedge whose start angle is not strictly below its end angle. -/
theorem C7_counterexample :
    d7 = get_next_token_distribution M7 ctx0 0 0 ∧
    ∃ w ∈ map_distribution_to_wedges d7, ¬ w.start_angle < w.end_angle := by
  constructor
  · rfl
  · with_unfolding_all decide

/-- C7 (amended): for every Distribution all of whose candidates have
strictly positive probability (and satisfying the data-model invariant),
every wedge produced by the Wedge Mapper satisfies
`0 ≤ start_angle < end_angle ≤ 360`; a zero-probability candidate instead
yields a degenerate wedge with `start_angle = end_angle`. -/
theorem C7_amended_wedge_bounds (d : Distribution)
    (hp : ∀ t ∈ d.tokens, 0 < t.probability)
    (hsum : candProbSum d.tokens + d.remaining_probability = 1)
    (hrem : 0 ≤ d.remaining_probability) :
    ∀ w ∈ map_distribution_to_wedges d,
      0 ≤ w.start_angle ∧ w.start_angle < w.end_angle ∧ w.end_angle ≤ 360 := by
  intro w hw
  have hnn : 0 ≤ candProbSum d.tokens :=
    candProbSum_nonneg _ (fun t ht => le_of_lt (hp t ht))
  have hsnd := wedgesFrom_snd d.tokens 0
  unfold map_distribution_to_wedges at hw
  by_cases h : d.remaining_probability > 0
  · simp only [if_pos h] at hw
    rcases List.mem_append.mp hw with hm | hm
    · have hb := wedgesFrom_bounds_strict d.tokens 0 hp w hm
      refine ⟨hb.1, hb.2.1, ?_⟩
      have hend := hb.2.2
      rw [hsnd] at hend
      nlinarith
    · simp only [List.mem_singleton] at hm
      subst hm
      refine ⟨?_, ?_, le_refl _⟩
      · show (0 : ℚ) ≤ (wedgesFrom d.tokens 0).2
        rw [hsnd]; nlinarith
      · show (wedgesFrom d.tokens 0).2 < (360 : ℚ)
        rw [hsnd]; nlinarith
  · simp only [if_neg h] at hw
    have hrem0 : d.remaining_probability = 0 := le_antisymm (not_lt.mp h) hrem
    have hb := wedgesFrom_bounds_strict d.tokens 0 hp w hw
    refine ⟨hb.1, hb.2.1, ?_⟩
    have hend := hb.2.2
    rw [hsnd] at hend
    nlinarith

/-- Witness for the amended C7 at the concrete distribution `d1`,
instantiated at its first wedge (the candidate of probability 1/2, wedge
[0, 180)). -/
theorem C7_witness :
    0 ≤ ({ token := decode0 0, token_id := 0, probability := 1/2
           start_angle := 0, end_angle := 180
           is_special := false, is_other := false } : Wedge).start_angle ∧
    ({ token := decode0 0, token_id := 0, probability := 1/2
       start_angle := 0, end_angle := 180
       is_special := false, is_other := false } : Wedge).start_angle <
      ({ token := decode0 0, token_id := 0, probability := 1/2
         start_angle := 0, end_angle := 180
         is_special := false, is_other := false } : Wedge).end_angle ∧
    ({ token := decode0 0, token_id := 0, probability := 1/2
       start_angle := 0, end_angle := 180
       is_special := false, is_other := false } : Wedge).end_angle ≤ 360 :=
  C7_amended_wedge_bounds d1 (by with_unfolding_all decide)
    (by with_unfolding_all decide) (by with_unfolding_all decide)
    { token := decode0 0, token_id := 0, probability := 1/2
      start_angle := 0, end_angle := 180
      is_special := false, is_other := false }
    (by with_unfolding_all decide)

/-- C4 counterexample: the claim fails as stated.  The Distribution Builder
called directly with the out-of-range primary threshold 3/2 does not fail
with any error — its result type has no error case, and on the vocabulary
of `M1` it produces a four-candidate Distribution with remaining mass 0. -/
theorem C4_counterexample :
    ¬ ((3 : ℚ)/2 ≤ 1) ∧
    (get_next_token_distribution M1 ctx0 (3/2) (1/20)).num_tokens = 4 ∧
    (get_next_token_distribution M1 ctx0 (3/2) (1/20)).remaining_probability = 0 := by
  refine ⟨by norm_num, ?_, ?_⟩ <;> with_unfolding_all decide

/-- C4 (amended): out-of-range thresholds are rejected before the
Distribution Builder runs, by the API request validation (`StartRequest`,
HTTP 422) rather than by the builder itself: every request whose primary or
secondary threshold lies outside [0,1] fails validation, while the builder
performs no threshold validation of its own. -/
theorem C4_amended_threshold_validation (prompt : String) (mt st : ℚ)
    (h : mt < 0 ∨ 1 < mt ∨ st < 0 ∨ 1 < st) :
    validate_start_request prompt mt st = false := by
  rcases h with h | h | h | h
  · have hn : ¬ (0 ≤ mt) := not_le.mpr h
    simp [validate_start_request, hn]
  · have hn : ¬ (mt ≤ 1) := not_le.mpr h
    simp [validate_start_request, hn]
  · have hn : ¬ (0 ≤ st) := not_le.mpr h
    simp [validate_start_request, hn]
  · have hn : ¬ (st ≤ 1) := not_le.mpr h
    simp [validate_start_request, hn]

/-- Witness for the amended C4: the validation rejects the out-of-range
primary threshold 3/2. -/
theorem C4_witness : validate_start_request ctx0 (3/2) (1/20) = false :=
  C4_amended_threshold_validation ctx0 (3/2) (1/20)
    (Or.inr (Or.inl (by norm_num)))

/-- C5: whenever the remaining mass after the primary pass exceeds 0.2,
the Distribution Builder performs the secondary pass — a vocabulary index
is selected exactly when its probability meets the primary or the secondary
threshold — and the remaining mass is recomputed over the enlarged
candidate set; and on the spec's scenario (vocabulary (0.5, 0.3, 0.15,
0.05), primary threshold 0.6, secondary threshold 0.05) the primary
selection is empty, all four entries are selected, the remaining mass is
recomputed to 0, and no "other" wedge is appended. -/
theorem C5_secondary_pass_and_scenario :
    (∀ (M : LanguageModel) (context : String) (mt st : ℚ),
      1 - candProbSum ((primaryIds (M.probs context) mt).map
          (mkCandidate M (M.probs context))) > 1/5 →
      (∀ i, i < (M.probs context).length →
        ((∃ c ∈ (get_next_token_distribution M context mt st).tokens,
            c.token_id = Int.ofNat i) ↔
          (mt ≤ (M.probs context).getD i 0 ∨ st ≤ (M.probs context).getD i 0))) ∧
      (get_next_token_distribution M context mt st).remaining_probability =
        1 - candProbSum (get_next_token_distribution M context mt st).tokens) ∧
    (primaryIds (M5.probs ctx0) (3/5) = [] ∧
     (get_next_token_distribution M5 ctx0 (3/5) (1/20)).tokens.map
        (fun t => (t.token_id, t.probability)) =
       [(0, 1/2), (1, 3/10), (2, 3/20), (3, 1/20)] ∧
     (get_next_token_distribution M5 ctx0 (3/5) (1/20)).remaining_probability = 0 ∧
     ∀ w ∈ map_distribution_to_wedges (get_next_token_distribution M5 ctx0 (3/5) (1/20)),
       w.is_other = false) := by
  constructor
  · intro M context mt st h
    obtain ⟨htok, hrem⟩ := get_next_tokens_of_secondary M context mt st h
    constructor
    · intro i hi
      rw [htok]
      constructor
      · rintro ⟨c, hc, hcid⟩
        rw [sortByDesc_mem] at hc
        rcases List.mem_append.mp hc with hm | hm
        · obtain ⟨i', hi', he⟩ := List.mem_map.mp hm
          have hid : Int.ofNat i' = Int.ofNat i := by rw [← he] at hcid; exact hcid
          have hii : i' = i := Int.ofNat.inj hid
          subst hii
          have hf := (List.mem_filter.mp hi').2
          left
          exact of_decide_eq_true hf
        · obtain ⟨i', hi', he⟩ := List.mem_map.mp hm
          have hid : Int.ofNat i' = Int.ofNat i := by rw [← he] at hcid; exact hcid
          have hii : i' = i := Int.ofNat.inj hid
          subst hii
          have hf := (List.mem_filter.mp hi').2
          right
          exact (of_decide_eq_true hf).1
      · intro hdisj
        simp only [sortByDesc_mem]
        by_cases hmt : mt ≤ (M.probs context).getD i 0
        · refine ⟨mkCandidate M (M.probs context) i, ?_, rfl⟩
          refine List.mem_append.mpr (Or.inl (List.mem_map.mpr ⟨i, ?_, rfl⟩))
          exact List.mem_filter.mpr ⟨List.mem_range.mpr hi, decide_eq_true hmt⟩
        · have hst : st ≤ (M.probs context).getD i 0 := by
            rcases hdisj with hd | hd
            · exact absurd hd hmt
            · exact hd
          refine ⟨mkCandidate M (M.probs context) i, ?_, rfl⟩
          refine List.mem_append.mpr (Or.inr (List.mem_map.mpr ⟨i, ?_, rfl⟩))
          exact List.mem_filter.mpr ⟨List.mem_range.mpr hi, decide_eq_true ⟨hst, hmt⟩⟩
    · rw [hrem, htok, sortByDesc_candProbSum]
  · refine ⟨?_, ?_, ?_, ?_⟩ <;> with_unfolding_all decide

/-- C8: every successful advance (`/api/select`) increases the session's
step by exactly 1, extends its context by exactly the accepted token's
string, and appends that token to the history, so that a session whose
history length equals its step keeps that invariant. -/
theorem C8_advance_step_context_history (M : LanguageModel) (s : SessionData)
    (id : Int) (u : ℚ → ℚ → ℚ) (c : Nat) (resp : SelectResponse)
    (s' : SessionData) (h : select_token M s id u c = .ok (resp, s')) :
    s'.step = s.step + 1 ∧
    s'.current_context = s.current_context ++ resp.selected_token ∧
    s'.history = s.history ++ [resp.selected_token] ∧
    (s.history.length = s.step → s'.history.length = s'.step) := by
  have hs := select_token_ok_shape M s id u c resp s' h
  refine ⟨hs.2.2.1, hs.1, hs.2.1, ?_⟩
  intro hlen
  rw [hs.2.1, hs.2.2.1, List.length_append, hlen]
  rfl

/-- Witness for C8: the concrete advance of session `s1` with candidate
id 0, whose result is the response `resp8` and session `s8`. -/
theorem C8_witness :
    s8.step = s1.step + 1 ∧
    s8.current_context = s1.current_context ++ resp8.selected_token ∧
    s8.history = s1.history ++ [resp8.selected_token] ∧
    (s1.history.length = s1.step → s8.history.length = s8.step) :=
  C8_advance_step_context_history M1 s1 0 uniform0 0 resp8 s8
    (by with_unfolding_all decide)

/-- C2 counterexample: the claim fails as stated.  Advancing session `s2`
with the end-of-sequence id 1 stops generation (`should_continue = false`)
but leaves the session's current distribution set to the pre-stop
distribution `d2` instead of clearing it, and a subsequent advance on the
resulting session succeeds (continuing generation) instead of failing with
a SessionTerminated error — no such error exists in the code. -/
theorem C2_counterexample :
    ((select_token M2 s2 1 uniform0 0).toOption.map
        (fun p => (p.1.should_continue, p.2.current_distribution))) =
      some (false, some d2) ∧
    ((select_token M2 s2 1 uniform0 0).bind
        (fun p => select_token M2 p.2 0 uniform0 0)).isOk = true := by
  constructor <;> with_unfolding_all decide

/-- C2 (amended): an advance that reaches a stop condition returns
`should_continue = false` with no next tokens, but does not clear the
session's stored distribution (it remains the pre-stop distribution) and
establishes no terminated state: a subsequent advance on the stopped
session does not fail with any SessionTerminated error — it succeeds for
every token id validly indexing the vocabulary, continuing generation from
the stale distribution. -/
theorem C2_amended_stop_keeps_distribution (M : LanguageModel)
    (s : SessionData) (d : Distribution) (id : Int) (u : ℚ → ℚ → ℚ) (c : Nat)
    (resp : SelectResponse) (s' : SessionData)
    (hd : s.current_distribution = some d)
    (h : select_token M s id u c = .ok (resp, s'))
    (hstop : resp.should_continue = false) :
    s'.current_distribution = some d ∧
    resp.next_tokens = none ∧
    (∀ id2 u2 c2, 0 ≤ id2 → id2 < Int.ofNat (M.probs d.context).length →
      (select_token M s' id2 u2 c2).isOk = true) := by
  have hs := select_token_ok_shape M s id u c resp s' h
  have hkeep := hs.2.2.2.2 hstop
  have hd' : s'.current_distribution = some d := by rw [hkeep.1, hd]
  refine ⟨hd', hkeep.2, ?_⟩
  intro id2 u2 c2 hpos hlen
  exact select_token_isOk M s' d id2 u2 c2 hd' hpos hlen

/-- Witness for the amended C2: the concrete stopping advance of `s2` with
the end-of-sequence id 1 yields `resp2` and session `s2stop`, which keeps
`d2` stored and advances again successfully with id 0. -/
theorem C2_witness :
    s2stop.current_distribution = some d2 ∧
    resp2.next_tokens = none ∧
    (select_token M2 s2stop 0 uniform0 0).isOk = true := by
  have h := C2_amended_stop_keeps_distribution M2 s2 d2 1 uniform0 0 resp2 s2stop
    (by with_unfolding_all decide) (by with_unfolding_all decide)
    (by with_unfolding_all decide)
  exact ⟨h.1, h.2.1, h.2.2 0 uniform0 0 (by norm_num)
    (by with_unfolding_all decide)⟩

/-- C1 counterexample: the claim fails as stated.  On session `s1` (whose
distribution `d1` has candidates 0 and 1 over a four-token vocabulary), the
token id 2 is neither a main candidate nor the sentinel: the Sampler's
select-by-token-id path would fail with NotFound for it, yet the advance
succeeds — it does not resolve the token through that path and does not
fail with NotFound. -/
theorem C1_counterexample :
    select_token_by_id (M1.probs ctx0) d1 2 decode0 uniform0 0 =
      .error (.notFound 2) ∧
    (select_token M1 s1 2 uniform0 0).isOk = true := by
  constructor <;> with_unfolding_all decide

/-- C1 (amended): the advance with a concrete (non-sentinel) token id does
not go through the Sampler's select-by-token-id path: it decodes the id
directly, and for an id absent from the main candidates (validly indexing
the vocabulary) it reads the probability from the full probability vector
and succeeds — it never fails with NotFound.  NotFound for an unmatched
non-sentinel id is raised only by the Sampler's `select_token_by_id`
itself, which the advance invokes solely for the sentinel -1. -/
theorem C1_amended_advance_never_notFound (M : LanguageModel)
    (s : SessionData) (d : Distribution) (id : Int) (u : ℚ → ℚ → ℚ) (c : Nat)
    (hd : s.current_distribution = some d) (hid : 0 ≤ id)
    (hlen : id < Int.ofNat (M.probs d.context).length)
    (hnm : ∀ t ∈ d.tokens, t.token_id ≠ id) :
    (∃ resp s', select_token M s id u c = .ok (resp, s') ∧
      resp.selected_token = decode_token M id ∧
      resp.selected_token_probability = (M.probs d.context).getD id.toNat 0) ∧
    select_token M s id u c ≠ .error (.notFound id) ∧
    (∀ (fp : List ℚ) (d' : Distribution) (u' : ℚ → ℚ → ℚ) (c' : Nat),
      (∀ t ∈ d'.tokens, t.token_id ≠ id) →
      select_token_by_id fp d' id M.decode u' c' = .error (.notFound id)) := by
  obtain ⟨resp, s', hok, htok, hprob⟩ :=
    select_token_unmatched_ok M s d id u c hd hid hlen hnm
  refine ⟨⟨resp, s', hok, htok, hprob⟩, ?_, ?_⟩
  · rw [hok]
    simp
  · intro fp d' u' c' hnm'
    exact select_token_by_id_notFound fp d' id M.decode u' c' (by omega) hnm'

/-- Witness for the amended C1 at session `s1` and the unmatched id 2:
instantiated to closed facts — the advance succeeds with the directly
decoded token and full-vector probability, and the Sampler path fails with
NotFound on the same distribution. -/
theorem C1_witness :
    (∃ resp s', select_token M1 s1 2 uniform0 0 = .ok (resp, s') ∧
      resp.selected_token = decode_token M1 2 ∧
      resp.selected_token_probability = (M1.probs d1.context).getD 2 0) ∧
    select_token M1 s1 2 uniform0 0 ≠ .error (.notFound 2) ∧
    select_token_by_id (M1.probs d1.context) d1 2 M1.decode uniform0 0 =
      .error (.notFound 2) := by
  have h := C1_amended_advance_never_notFound M1 s1 d1 2 uniform0 0
    (by with_unfolding_all decide) (by norm_num)
    (by with_unfolding_all decide) (by with_unfolding_all decide)
  exact ⟨h.1, h.2.1, h.2.2 (M1.probs d1.context) d1 uniform0 0
    (by with_unfolding_all decide)⟩

/-- Witness for C5: the general part applied to the scenario model `M5` at
thresholds (3/5, 1/20), instantiated at vocabulary index 3 (probability
1/20, selected by the secondary pass), with the hypothesis that the
post-primary remaining mass 1 exceeds 0.2 discharged by evaluation. -/
theorem C5_witness :
    ((∃ c ∈ (get_next_token_distribution M5 ctx0 (3/5) (1/20)).tokens,
        c.token_id = Int.ofNat 3) ↔
      ((3 : ℚ)/5 ≤ (M5.probs ctx0).getD 3 0 ∨
       (1 : ℚ)/20 ≤ (M5.probs ctx0).getD 3 0)) ∧
    (get_next_token_distribution M5 ctx0 (3/5) (1/20)).remaining_probability =
      1 - candProbSum (get_next_token_distribution M5 ctx0 (3/5) (1/20)).tokens := by
  have h := C5_secondary_pass_and_scenario.1 M5 ctx0 (3/5) (1/20)
    (by with_unfolding_all decide)
  exact ⟨h.1 3 (by with_unfolding_all decide), h.2⟩

/-- C9: the sampling operations — probabilistic sample, select by landing
angle, select by token id, and the other-resample they invoke — return
their result without mutating the input distribution: in the state-passing
forms, the distribution observed after each call is the argument itself,
with candidate list, every candidate and remaining probability unchanged. -/
theorem C9_sampling_preserves_distribution (fullProbs : List ℚ)
    (d : Distribution) (decode : Nat → String) (sample_idx : Nat)
    (uniform : ℚ → ℚ → ℚ) (choice : Nat) (landing_angle : ℚ)
    (token_id : Int) (w : Wedge) (target_angle : ℚ) :
    (sample_token_from_distribution_st fullProbs d decode sample_idx uniform choice).2 = d ∧
    (select_token_from_angle_st fullProbs d landing_angle decode choice).2 = d ∧
    (select_token_by_id_st fullProbs d token_id decode uniform choice).2 = d ∧
    (sample_from_other_st fullProbs d w target_angle decode choice).2 = d ∧
    (sample_token_from_distribution_st fullProbs d decode sample_idx uniform choice).2.tokens
      = d.tokens ∧
    (select_token_from_angle_st fullProbs d landing_angle decode choice).2.remaining_probability
      = d.remaining_probability :=
  ⟨rfl, rfl, rfl, rfl, rfl, rfl⟩

/-- C10: select-by-token-id with the sentinel id -1 never fails with
NotFound: whenever no candidate carries the id -1 (true of every built
distribution), the candidate list is nonempty and some vocabulary index is
excluded, the call performs an other-resample over the excluded vocabulary
and reports the bounds of the last wedge in the mapped sequence as
`wedge_start`/`wedge_end` — even when `remaining_probability = 0` and no
"other" wedge exists, in which case that last wedge is the last real
candidate's wedge. -/
theorem C10_sentinel_resample_uses_last_wedge (fullProbs : List ℚ)
    (d : Distribution) (decode : Nat → String) (u : ℚ → ℚ → ℚ) (c : Nat)
    (hno : ∀ t ∈ d.tokens, t.token_id ≠ -1)
    (hne : d.tokens ≠ [])
    (hx : otherTokenIds fullProbs d ≠ []) :
    ∃ w, (map_distribution_to_wedges d).getLast? = some w ∧
      select_token_by_id fullProbs d (-1) decode u c =
        sample_from_other fullProbs d w (u w.start_angle w.end_angle) decode c ∧
      (∃ r, select_token_by_id fullProbs d (-1) decode u c = .ok r ∧
        r.is_other = true ∧ r.wedge_start = w.start_angle ∧
        r.wedge_end = w.end_angle) ∧
      (d.remaining_probability = 0 →
        w.is_other = false ∧
        ∃ t, d.tokens.getLast? = some t ∧ w.token_id = t.token_id ∧
          w.token = t.token) := by
  have hws : (wedgesFrom d.tokens 0).1 ≠ [] := by
    intro hnil
    have := wedgesFrom_length d.tokens 0
    rw [hnil] at this
    exact hne (List.eq_nil_of_length_eq_zero this.symm)
  have hmapne : map_distribution_to_wedges d ≠ [] := by
    unfold map_distribution_to_wedges
    by_cases h : d.remaining_probability > 0
    · simp [if_pos h]
    · simp only [if_neg h]
      exact hws
  obtain ⟨w, hw⟩ : ∃ w, (map_distribution_to_wedges d).getLast? = some w := by
    cases hl : (map_distribution_to_wedges d).getLast? with
    | none => exact absurd (List.getLast?_eq_none_iff.mp hl) hmapne
    | some w => exact ⟨w, rfl⟩
  have hfi : List.findIdx? (fun t => t.token_id == (-1 : Int)) d.tokens = none := by
    rw [List.findIdx?_eq_none_iff]
    intro t ht
    simp [hno t ht]
  have hsel : select_token_by_id fullProbs d (-1) decode u c =
      sample_from_other fullProbs d w (u w.start_angle w.end_angle) decode c := by
    unfold select_token_by_id
    dsimp only []
    rw [hfi]
    dsimp only []
    rw [if_pos rfl, hw]
  have hempty : ¬ ((otherTokenIds fullProbs d).isEmpty = true) := by
    simp only [List.isEmpty_iff]
    exact hx
  have hresample : sample_from_other fullProbs d w
      (u w.start_angle w.end_angle) decode c =
      .ok { token := decode ((otherTokenIds fullProbs d).getD
              (c % (otherTokenIds fullProbs d).length) 0)
            token_id := Int.ofNat ((otherTokenIds fullProbs d).getD
              (c % (otherTokenIds fullProbs d).length) 0)
            probability := fullProbs.getD ((otherTokenIds fullProbs d).getD
              (c % (otherTokenIds fullProbs d).length) 0) 0
            wedge_start := w.start_angle, wedge_end := w.end_angle
            target_angle := u w.start_angle w.end_angle, is_other := true } := by
    unfold sample_from_other
    dsimp only []
    rw [if_neg hempty]
  refine ⟨w, hw, hsel, ⟨_, hsel.trans hresample, rfl, rfl, rfl⟩, ?_⟩
  intro hrem0
  have hmap : map_distribution_to_wedges d = (wedgesFrom d.tokens 0).1 := by
    unfold map_distribution_to_wedges
    rw [if_neg (by rw [hrem0]; exact lt_irrefl 0)]
  rw [hmap] at hw
  constructor
  · exact wedgesFrom_is_other d.tokens 0 w (List.mem_of_mem_getLast? hw)
  · have hlen := wedgesFrom_length d.tokens 0
    have hget := wedgesFrom_get? d.tokens 0 (d.tokens.length - 1)
    rw [List.getLast?_eq_get?, hlen] at hw
    rw [hw] at hget
    cases ht : d.tokens.get? (d.tokens.length - 1) with
    | none => rw [ht] at hget; simp at hget
    | some t =>
      rw [ht] at hget
      simp only [Option.map_some', Option.some.injEq, Prod.mk.injEq] at hget
      refine ⟨t, ?_, hget.2.1, hget.1⟩
      rw [List.getLast?_eq_get?]
      exact ht

/-- C6: for every Distribution satisfying the data-model invariant (with
nonnegative candidate probabilities, and a nonempty excluded vocabulary
whenever the remaining mass is positive) and every landing angle θ in
[0, 360], select-by-landing-angle succeeds: at most one wedge's half-open
interval contains θ; the result reports exactly the containing wedge's
bounds with target angle θ, θ = 360 resolving to the last wedge; for a
non-other wedge the returned token is that wedge's token; and for any
angle contained in no wedge, other than via the 360 special case, the call
fails with OutOfRange. -/
theorem C6_select_by_landing_angle (fullProbs : List ℚ) (d : Distribution)
    (decode : Nat → String) (choice : Nat) (θ : ℚ)
    (hp : ∀ t ∈ d.tokens, 0 ≤ t.probability)
    (hsum : candProbSum d.tokens + d.remaining_probability = 1)
    (hrem : 0 ≤ d.remaining_probability)
    (hx : 0 < d.remaining_probability → otherTokenIds fullProbs d ≠ [])
    (hθ0 : 0 ≤ θ) (hθ1 : θ ≤ 360) :
    (∀ i j wi wj,
      (map_distribution_to_wedges d).get? i = some wi →
      (map_distribution_to_wedges d).get? j = some wj →
      wi.start_angle ≤ θ → θ < wi.end_angle →
      wj.start_angle ≤ θ → θ < wj.end_angle → i = j) ∧
    (∃ r w, select_token_from_angle fullProbs d θ decode choice = .ok r ∧
      r.wedge_start = w.start_angle ∧ r.wedge_end = w.end_angle ∧
      r.target_angle = θ ∧
      ((w ∈ map_distribution_to_wedges d ∧ w.start_angle ≤ θ ∧ θ < w.end_angle) ∨
        (θ = 360 ∧ (map_distribution_to_wedges d).getLast? = some w)) ∧
      (w.is_other = false →
        r.token = w.token ∧ r.token_id = w.token_id ∧ r.is_other = false)) ∧
    (∀ θ2, (∀ w ∈ map_distribution_to_wedges d,
        ¬ (w.start_angle ≤ θ2 ∧ θ2 < w.end_angle)) → θ2 ≠ 360 →
      select_token_from_angle fullProbs d θ2 decode choice =
        .error (.outOfRange θ2)) := by
  have hchain := map_wedges_chain d
  have hwidth := map_wedges_width_nonneg d hp hsum hrem
  refine ⟨wedge_match_unique _ hchain hwidth θ, ?_, ?_⟩
  · cases hfw : findWedge (map_distribution_to_wedges d) θ with
    | some p =>
      obtain ⟨i, w⟩ := p
      obtain ⟨hget, hm1, hm2⟩ := findWedge_some _ θ i w hfw
      cases hwo : w.is_other with
      | true =>
        have hpos := map_wedges_other_of_pos d w (List.get?_mem hget) hwo
        have hex := hx hpos
        have hsel : select_token_from_angle fullProbs d θ decode choice =
            sample_from_other fullProbs d w θ decode choice := by
          unfold select_token_from_angle
          dsimp only []
          rw [hfw]
          dsimp only []
          rw [if_pos hwo]
        refine ⟨_, w,
          hsel.trans (sample_from_other_ok fullProbs d w θ decode choice hex),
          rfl, rfl, rfl, Or.inl ⟨List.get?_mem hget, hm1, hm2⟩, ?_⟩
        intro hfalse
        rw [hfalse] at hwo
        exact Bool.noConfusion hwo
      | false =>
        obtain ⟨t, ht, htok, hid, _⟩ := map_wedges_get?_token d i w hget hwo
        have hsel : select_token_from_angle fullProbs d θ decode choice =
            .ok { token := t.token, token_id := t.token_id
                  probability := t.probability
                  wedge_start := w.start_angle, wedge_end := w.end_angle
                  target_angle := θ, is_other := false } := by
          unfold select_token_from_angle
          dsimp only []
          rw [hfw]
          dsimp only []
          rw [if_neg (by rw [hwo]; exact Bool.noConfusion)]
          rw [ht]
        exact ⟨_, w, hsel, rfl, rfl, rfl,
          Or.inl ⟨List.get?_mem hget, hm1, hm2⟩,
          fun _ => ⟨htok.symm, hid.symm, rfl⟩⟩
    | none =>
      have hnempty := map_wedges_ne_nil d hsum hrem
      have hθ360 : θ = 360 := by
        by_contra hne
        have hlt : θ < 360 := lt_of_le_of_ne hθ1 hne
        obtain ⟨w0, hw0⟩ : ∃ w0, (map_distribution_to_wedges d).head? = some w0 := by
          cases hh : (map_distribution_to_wedges d).head? with
          | none => exact absurd (List.head?_eq_none_iff.mp hh) hnempty
          | some w0 => exact ⟨w0, rfl⟩
        obtain ⟨wl, hwl⟩ : ∃ wl, (map_distribution_to_wedges d).getLast? = some wl := by
          cases hh : (map_distribution_to_wedges d).getLast? with
          | none => exact absurd (List.getLast?_eq_none_iff.mp hh) hnempty
          | some wl => exact ⟨wl, rfl⟩
        have hstart : w0.start_angle = 0 :=
          map_wedges_head_start d w0 (Option.mem_def.mpr hw0)
        have hend : wl.end_angle = 360 :=
          map_wedges_last_end d hsum hrem wl (Option.mem_def.mpr hwl)
        obtain ⟨w, hwm, hws⟩ := wedges_cover _ hchain θ w0
          (Option.mem_def.mpr hw0) wl (Option.mem_def.mpr hwl)
          (by rw [hstart]; exact hθ0) (by rw [hend]; exact hlt)
        exact (findWedge_none _ θ).mp hfw w hwm hws
      subst hθ360
      obtain ⟨wl, hwl⟩ : ∃ wl, (map_distribution_to_wedges d).getLast? = some wl := by
        cases hh : (map_distribution_to_wedges d).getLast? with
        | none => exact absurd (List.getLast?_eq_none_iff.mp hh) hnempty
        | some wl => exact ⟨wl, rfl⟩
      cases hwo : wl.is_other with
      | true =>
        have hpos := map_wedges_other_of_pos d wl (List.mem_of_mem_getLast? hwl) hwo
        have hex := hx hpos
        have hsel : select_token_from_angle fullProbs d 360 decode choice =
            sample_from_other fullProbs d wl 360 decode choice := by
          unfold select_token_from_angle
          dsimp only []
          rw [hfw]
          dsimp only []
          rw [if_pos rfl, hwl]
          dsimp only []
          rw [if_pos hwo]
        refine ⟨_, wl,
          hsel.trans (sample_from_other_ok fullProbs d wl 360 decode choice hex),
          rfl, rfl, rfl, Or.inr ⟨rfl, hwl⟩, ?_⟩
        intro hfalse
        rw [hfalse] at hwo
        exact Bool.noConfusion hwo
      | false =>
        have hnpos : ¬ 0 < d.remaining_probability := by
          intro hpos
          have hlit := map_wedges_getLast_of_pos d hpos
          rw [hwl] at hlit
          injection hlit with hlit
          rw [hlit] at hwo
          exact Bool.noConfusion hwo
        have hmap : map_distribution_to_wedges d = (wedgesFrom d.tokens 0).1 := by
          unfold map_distribution_to_wedges
          rw [if_neg hnpos]
        have hwl' : ((wedgesFrom d.tokens 0).1).getLast? = some wl := by
          rw [← hmap]; exact hwl
        obtain ⟨t, ht, htok, hid, _⟩ := wedgesFrom_getLast?_token d.tokens wl hwl'
        have hsel : select_token_from_angle fullProbs d 360 decode choice =
            .ok { token := t.token, token_id := t.token_id
                  probability := t.probability
                  wedge_start := wl.start_angle, wedge_end := wl.end_angle
                  target_angle := 360, is_other := false } := by
          unfold select_token_from_angle
          dsimp only []
          rw [hfw]
          dsimp only []
          rw [if_pos rfl, hwl]
          dsimp only []
          rw [if_neg (by rw [hwo]; exact Bool.noConfusion)]
          rw [ht]
        exact ⟨_, wl, hsel, rfl, rfl, rfl, Or.inr ⟨rfl, hwl⟩,
          fun _ => ⟨htok.symm, hid.symm, rfl⟩⟩
  · intro θ2 hnomatch hne360
    have hfw : findWedge (map_distribution_to_wedges d) θ2 = none :=
      (findWedge_none _ θ2).mpr hnomatch
    unfold select_token_from_angle
    dsimp only []
    rw [hfw]
    dsimp only []
    rw [if_neg hne360]

/-- Witness for C6 at the concrete distribution `d1` and landing angle 100,
all hypotheses discharged by evaluation. -/
theorem C6_witness :
    (∀ i j wi wj,
      (map_distribution_to_wedges d1).get? i = some wi →
      (map_distribution_to_wedges d1).get? j = some wj →
      wi.start_angle ≤ 100 → (100 : ℚ) < wi.end_angle →
      wj.start_angle ≤ 100 → (100 : ℚ) < wj.end_angle → i = j) ∧
    (∃ r w, select_token_from_angle (M1.probs ctx0) d1 100 decode0 0 = .ok r ∧
      r.wedge_start = w.start_angle ∧ r.wedge_end = w.end_angle ∧
      r.target_angle = 100 ∧
      ((w ∈ map_distribution_to_wedges d1 ∧ w.start_angle ≤ 100 ∧
          (100 : ℚ) < w.end_angle) ∨
        ((100 : ℚ) = 360 ∧ (map_distribution_to_wedges d1).getLast? = some w)) ∧
      (w.is_other = false →
        r.token = w.token ∧ r.token_id = w.token_id ∧ r.is_other = false)) ∧
    (∀ θ2, (∀ w ∈ map_distribution_to_wedges d1,
        ¬ (w.start_angle ≤ θ2 ∧ θ2 < w.end_angle)) → θ2 ≠ 360 →
      select_token_from_angle (M1.probs ctx0) d1 θ2 decode0 0 =
        .error (.outOfRange θ2)) :=
  C6_select_by_landing_angle (M1.probs ctx0) d1 decode0 0 100
    (by with_unfolding_all decide) (by with_unfolding_all decide)
    (by with_unfolding_all decide) (by with_unfolding_all decide)
    (by norm_num) (by norm_num)

/-- Witness for C10 at the concrete distribution `d10`, whose remaining
probability is exactly 0 (so no "other" wedge is mapped) and whose only
excluded vocabulary index is 2. -/
theorem C10_witness :
    ∃ w, (map_distribution_to_wedges d10).getLast? = some w ∧
      select_token_by_id (M10.probs ctx0) d10 (-1) decode0 uniform0 0 =
        sample_from_other (M10.probs ctx0) d10 w
          (uniform0 w.start_angle w.end_angle) decode0 0 ∧
      (∃ r, select_token_by_id (M10.probs ctx0) d10 (-1) decode0 uniform0 0 =
          .ok r ∧
        r.is_other = true ∧ r.wedge_start = w.start_angle ∧
        r.wedge_end = w.end_angle) ∧
      (d10.remaining_probability = 0 →
        w.is_other = false ∧
        ∃ t, d10.tokens.getLast? = some t ∧ w.token_id = t.token_id ∧
          w.token = t.token) :=
  C10_sentinel_resample_uses_last_wedge (M10.probs ctx0) d10 decode0 uniform0 0
    (by with_unfolding_all decide) (by with_unfolding_all decide)
    (by with_unfolding_all decide)

end TokenWheel
